import Mathlib

/-
  Verification of the Verifiable Credential core of aries-framework-go
  against its natural-language specification.

  Shallow embedding of:
  - pkg/doc/verifiable/credential.go (credential decoding, validation,
    schema cache, schema loader, marshalling), and
  - pkg/crypto/tinkcrypto/primitive/composite/keyio/composite_key_export.go
    (composite public key export/import).

  JSON documents are modelled as values of the inductive type Json below;
  "equivalence modulo whitespace and key ordering" is equality of values
  after recursively irrelevant parts are ignored (whitespace does not exist
  at the value level) and after object members are brought into a canonical
  key order by sortK.
-/

namespace AriesVC

/-- A JSON value.  Go's encoding/json object semantics are modelled by an
association list of members in document order; numbers are modelled as
integers (no claim in scope depends on float formatting). -/
inductive Json where
  | null
  | bool (b : Bool)
  | num (n : Int)
  | str (s : String)
  | arr (elems : List Json)
  | obj (fields : List (String × Json))
  deriving Repr, Inhabited

/-- Keys of an association list of JSON object members. -/
def keysOf (l : List (String × Json)) : List String := l.map Prod.fst

/-- An object member list has no duplicate keys. -/
def NodupKeys (l : List (String × Json)) : Prop := (keysOf l).Nodup

/-- First value stored under key k, scanning members left to right. -/
def lookupKey (k : String) : List (String × Json) → Option Json
  | [] => none
  | p :: rest => if p.1 = k then some p.2 else lookupKey k rest

/-- Member list of a JSON object (empty for non-objects). -/
def topFields : Json → List (String × Json)
  | .obj fs => fs
  | _ => []

/-- Value of key k of a JSON object (none for non-objects). -/
def Json.lookup (j : Json) (k : String) : Option Json := lookupKey k (topFields j)

/-- Byte-wise (code-point-wise) strict lexicographic order on character
lists, used only to fix one canonical order of object keys. -/
def strLtAux : List Char → List Char → Bool
  | [], [] => false
  | [], _ :: _ => true
  | _ :: _, [] => false
  | c :: cs, d :: ds =>
    if c.toNat < d.toNat then true
    else if d.toNat < c.toNat then false
    else strLtAux cs ds

/-- Strict lexicographic order on strings. -/
def strLt (a b : String) : Bool := strLtAux a.data b.data

/-- Insert one object member into a key-sorted member list. -/
def insertK (p : String × Json) : List (String × Json) → List (String × Json)
  | [] => [p]
  | q :: rest => if strLt p.1 q.1 then p :: q :: rest else q :: insertK p rest

/-- Sort object members by key (insertion sort). -/
def sortK : List (String × Json) → List (String × Json)
  | [] => []
  | p :: rest => insertK p (sortK rest)

/-- Canonical form of a JSON value up to top-level key ordering: the
top-level members of an object are brought into sorted key order. -/
def canonTop : Json → Json
  | .obj fs => .obj (sortK fs)
  | j => j

theorem charEqOfToNat {c d : Char} (h : c.toNat = d.toNat) : c = d :=
  Char.ext (UInt32.ext h)

theorem strLtAux_asymm_eq : ∀ a b, strLtAux a b = false → strLtAux b a = false → a = b
  | [], [], _, _ => rfl
  | [], _ :: _, h, _ => by simp [strLtAux] at h
  | _ :: _, [], _, h => by simp [strLtAux] at h
  | c :: cs, d :: ds, h1, h2 => by
    rcases Nat.lt_trichotomy c.toNat d.toNat with hlt | heq | hgt
    · simp [strLtAux, hlt] at h1
    · have hc : c = d := charEqOfToNat heq
      subst hc
      simp only [strLtAux, Nat.lt_irrefl, if_false] at h1 h2
      exact congrArg (c :: ·) (strLtAux_asymm_eq cs ds h1 h2)
    · simp [strLtAux, hgt, Nat.lt_asymm hgt] at h2

theorem strLt_asymm_eq {a b : String} (h1 : strLt a b = false) (h2 : strLt b a = false) :
    a = b :=
  String.ext (strLtAux_asymm_eq _ _ h1 h2)

theorem strLtAux_asymm : ∀ a b, strLtAux a b = true → strLtAux b a = false
  | [], [], h => by simp [strLtAux] at h
  | [], _ :: _, _ => by simp [strLtAux]
  | _ :: _, [], h => by simp [strLtAux] at h
  | c :: cs, d :: ds, h => by
    rcases Nat.lt_trichotomy c.toNat d.toNat with hlt | heq | hgt
    · simp [strLtAux, hlt, Nat.lt_asymm hlt]
    · have hc : c = d := charEqOfToNat heq
      subst hc
      simp only [strLtAux, Nat.lt_irrefl, if_false] at h ⊢
      exact strLtAux_asymm cs ds h
    · simp [strLtAux, hgt, Nat.lt_asymm hgt] at h

theorem strLt_asymm {a b : String} (h : strLt a b = true) : strLt b a = false :=
  strLtAux_asymm _ _ h

/-- Weak key order: a is not strictly greater than b. -/
def keyLe (a b : String) : Prop := strLt b a = false

theorem keyLe_total (a b : String) : keyLe a b ∨ keyLe b a := by
  by_cases h : strLt b a = true
  · exact Or.inr (strLt_asymm h)
  · exact Or.inl (by simpa [keyLe] using h)

theorem strLtAux_trans : ∀ a b c, strLtAux a b = true → strLtAux b c = true →
    strLtAux a c = true
  | [], [], _, h1, _ => by simp [strLtAux] at h1
  | [], _ :: _, [], _, h2 => by simp [strLtAux] at h2
  | [], _ :: _, _ :: _, _, _ => by simp [strLtAux]
  | _ :: _, [], _, h1, _ => by simp [strLtAux] at h1
  | _ :: _, _ :: _, [], _, h2 => by simp [strLtAux] at h2
  | a1 :: as, b1 :: bs, c1 :: cs, h1, h2 => by
    rcases Nat.lt_trichotomy a1.toNat b1.toNat with hab | hab | hab
    · rcases Nat.lt_trichotomy b1.toNat c1.toNat with hbc | hbc | hbc
      · simp [strLtAux, Nat.lt_trans hab hbc]
      · simp [strLtAux, hbc ▸ hab]
      · simp [strLtAux, hbc, Nat.lt_asymm hbc] at h2
    · have hb : a1 = b1 := charEqOfToNat hab
      subst hb
      simp only [strLtAux, Nat.lt_irrefl, if_false] at h1
      rcases Nat.lt_trichotomy a1.toNat c1.toNat with hac | hac | hac
      · simp [strLtAux, hac]
      · have hc : a1 = c1 := charEqOfToNat hac
        subst hc
        simp only [strLtAux, Nat.lt_irrefl, if_false] at h2 ⊢
        exact strLtAux_trans as bs cs h1 h2
      · simp [strLtAux, hac, Nat.lt_asymm hac] at h2
    · simp [strLtAux, hab, Nat.lt_asymm hab] at h1

theorem strLt_trans {a b c : String} (h1 : strLt a b = true) (h2 : strLt b c = true) :
    strLt a c = true :=
  strLtAux_trans _ _ _ h1 h2

theorem mem_insertK {p q : String × Json} {l : List (String × Json)} :
    q ∈ insertK p l ↔ q = p ∨ q ∈ l := by
  induction l with
  | nil => simp [insertK]
  | cons r rest ih =>
    simp only [insertK]
    split
    · simp only [List.mem_cons]
    · simp only [List.mem_cons, ih]
      tauto

theorem pairwise_insertK {p : String × Json} {l : List (String × Json)}
    (h : l.Pairwise (fun x y => keyLe x.1 y.1)) :
    (insertK p l).Pairwise (fun x y => keyLe x.1 y.1) := by
  induction l with
  | nil => simp [insertK]
  | cons q rest ih =>
    rcases List.pairwise_cons.mp h with ⟨hq, hrest⟩
    simp only [insertK]
    split
    · rename_i hlt
      refine List.pairwise_cons.mpr ⟨?_, h⟩
      intro r hr
      rcases List.mem_cons.mp hr with hrq | hrt
      · subst hrq; exact strLt_asymm hlt
      · have hqr := hq r hrt
        by_cases hc : strLt r.1 p.1 = true
        · exact absurd (strLt_trans hc hlt) (by simpa [keyLe] using hqr)
        · exact (by simpa [keyLe] using hc)
    · rename_i hnlt
      refine List.pairwise_cons.mpr ⟨?_, ih hrest⟩
      intro r hr
      rcases mem_insertK.mp hr with hrp | hrt
      · subst hrp
        exact (by simpa [keyLe] using hnlt)
      · exact hq r hrt

theorem pairwise_sortK (l : List (String × Json)) :
    (sortK l).Pairwise (fun x y => keyLe x.1 y.1) := by
  induction l with
  | nil => simp [sortK]
  | cons p rest ih => exact pairwise_insertK ih

theorem keysOf_insertK_perm (p : String × Json) (l : List (String × Json)) :
    (keysOf (insertK p l)).Perm (p.1 :: keysOf l) := by
  induction l with
  | nil => simp [insertK, keysOf]
  | cons q rest ih =>
    simp only [insertK]
    split
    · exact List.Perm.refl _
    · simp only [keysOf, List.map_cons] at ih ⊢
      exact (ih.cons q.1).trans (List.Perm.swap _ _ _)

theorem keysOf_sortK_perm (l : List (String × Json)) :
    (keysOf (sortK l)).Perm (keysOf l) := by
  induction l with
  | nil => exact List.Perm.refl _
  | cons p rest ih =>
    simp only [sortK, keysOf, List.map_cons]
    exact (keysOf_insertK_perm p (sortK rest)).trans (ih.cons p.1)

theorem nodupKeys_sortK {l : List (String × Json)} (h : NodupKeys l) :
    NodupKeys (sortK l) :=
  (keysOf_sortK_perm l).nodup_iff.mpr h

theorem lookupKey_insertK {p : String × Json} {l : List (String × Json)}
    (h : p.1 ∉ keysOf l) (k : String) :
    lookupKey k (insertK p l) = lookupKey k (p :: l) := by
  induction l with
  | nil => rfl
  | cons q rest ih =>
    have hq : p.1 ≠ q.1 := by
      intro hh
      exact h (by simp [keysOf, hh])
    have hrest : p.1 ∉ keysOf rest := by
      intro hh
      exact h (by simp [keysOf] at hh ⊢; exact Or.inr hh)
    simp only [insertK]
    split
    · rfl
    · simp only [lookupKey]
      by_cases hqk : q.1 = k
      · have hpk : ¬ p.1 = k := fun hh => hq (hh.trans hqk.symm)
        rw [if_pos hqk, if_neg hpk, if_pos hqk]
      · rw [if_neg hqk, ih hrest]
        simp only [lookupKey]
        rw [if_neg hqk]

theorem lookupKey_sortK {l : List (String × Json)} (h : NodupKeys l) (k : String) :
    lookupKey k (sortK l) = lookupKey k l := by
  induction l with
  | nil => rfl
  | cons p rest ih =>
    have hmem : p.1 ∉ keysOf rest := by
      simpa [NodupKeys, keysOf] using (List.nodup_cons.mp h).1
    have hrest : NodupKeys rest := (List.nodup_cons.mp h).2
    have hmem2 : p.1 ∉ keysOf (sortK rest) := by
      intro hh
      exact hmem ((keysOf_sortK_perm rest).mem_iff.mp hh)
    simp only [sortK]
    rw [lookupKey_insertK hmem2 k]
    simp only [lookupKey]
    split
    · rfl
    · exact ih hrest

theorem lookupKey_isSome_iff {l : List (String × Json)} {k : String} :
    (lookupKey k l).isSome = true ↔ k ∈ keysOf l := by
  induction l with
  | nil => simp [lookupKey, keysOf]
  | cons p rest ih =>
    simp only [lookupKey, keysOf, List.map_cons, List.mem_cons]
    split
    · rename_i hp
      simp [hp.symm]
    · rename_i hp
      simp only [ih, keysOf]
      constructor
      · exact Or.inr
      · intro hk
        rcases hk with hk | hk
        · exact absurd hk.symm hp
        · exact hk

theorem lookupKey_eq_none_of_not_mem {l : List (String × Json)} {k : String}
    (h : k ∉ keysOf l) : lookupKey k l = none := by
  cases hl : lookupKey k l with
  | none => rfl
  | some v =>
    exact absurd (lookupKey_isSome_iff.mp (by simp [hl])) h

/-- Two member lists sorted by key, without duplicate keys, that agree on
every lookup are equal. -/
theorem sorted_lookup_ext : ∀ (l1 l2 : List (String × Json)),
    l1.Pairwise (fun x y => keyLe x.1 y.1) → l2.Pairwise (fun x y => keyLe x.1 y.1) →
    NodupKeys l1 → NodupKeys l2 →
    (∀ k, lookupKey k l1 = lookupKey k l2) → l1 = l2
  | [], [], _, _, _, _, _ => rfl
  | [], q :: l2, _, _, _, _, hl => by
    have := hl q.1
    simp [lookupKey] at this
  | p :: l1, [], _, _, _, _, hl => by
    have := hl p.1
    simp [lookupKey] at this
  | p :: l1, q :: l2, hs1, hs2, hn1, hn2, hl => by
    rcases List.pairwise_cons.mp hs1 with ⟨hp1, hs1t⟩
    rcases List.pairwise_cons.mp hs2 with ⟨hp2, hs2t⟩
    have hkeys : p.1 = q.1 := by
      by_contra hne
      -- p.1 is a key of the right list
      have hpq : p.1 ∈ keysOf (q :: l2) := by
        refine lookupKey_isSome_iff.mp ?_
        rw [← hl p.1]
        simp [lookupKey]
      have hqp : q.1 ∈ keysOf (p :: l1) := by
        refine lookupKey_isSome_iff.mp ?_
        rw [hl q.1]
        simp [lookupKey]
      -- so p.1 is in the tail of the right list, hence keyLe q.1 p.1;
      -- symmetrically keyLe p.1 q.1; asymmetry forces p.1 = q.1.
      have hA : strLt q.1 p.1 = false := by
        rcases List.mem_cons.mp hqp with h | h
        · exact absurd h.symm hne
        · rcases List.mem_map.mp h with ⟨r, hr, hrk⟩
          have hh := hp1 r hr
          simp only [keyLe] at hh
          rw [hrk] at hh
          exact hh
      have hB : strLt p.1 q.1 = false := by
        rcases List.mem_cons.mp hpq with h | h
        · exact absurd h hne
        · rcases List.mem_map.mp h with ⟨r, hr, hrk⟩
          have hh := hp2 r hr
          simp only [keyLe] at hh
          rw [hrk] at hh
          exact hh
      exact hne (strLt_asymm_eq hB hA)
    have hvals : p.2 = q.2 := by
      have hh := hl p.1
      simp only [lookupKey] at hh
      rw [if_pos hkeys.symm] at hh
      simpa using hh
    have hn1t : NodupKeys l1 := (List.nodup_cons.mp hn1).2
    have hn2t : NodupKeys l2 := (List.nodup_cons.mp hn2).2
    have hp1m : p.1 ∉ keysOf l1 := by
      simpa [NodupKeys, keysOf] using (List.nodup_cons.mp hn1).1
    have hq2m : q.1 ∉ keysOf l2 := by
      simpa [NodupKeys, keysOf] using (List.nodup_cons.mp hn2).1
    have htail : ∀ k, lookupKey k l1 = lookupKey k l2 := by
      intro k
      by_cases hk : k = p.1
      · subst hk
        rw [lookupKey_eq_none_of_not_mem hp1m,
          lookupKey_eq_none_of_not_mem (by rw [← hkeys] at hq2m; exact hq2m)]
      · have := hl k
        simp only [lookupKey] at this
        rw [if_neg (fun hh => hk hh.symm), if_neg (fun hh => hk (hkeys.trans hh).symm)]
          at this
        exact this
    have : l1 = l2 := sorted_lookup_ext l1 l2 hs1t hs2t hn1t hn2t htail
    rw [this]
    have : p = q := Prod.ext hkeys hvals
    rw [this]

/-- Sorting two duplicate-free member lists that agree on every lookup
yields the same list: the canonical-order form is determined by the
key-to-value mapping alone. -/
theorem sortK_ext {l1 l2 : List (String × Json)} (hn1 : NodupKeys l1)
    (hn2 : NodupKeys l2) (hl : ∀ k, lookupKey k l1 = lookupKey k l2) :
    sortK l1 = sortK l2 := by
  refine sorted_lookup_ext _ _ (pairwise_sortK l1) (pairwise_sortK l2)
    (nodupKeys_sortK hn1) (nodupKeys_sortK hn2) ?_
  intro k
  rw [lookupKey_sortK hn1 k, lookupKey_sortK hn2 k]
  exact hl k

theorem lookupKey_append (k : String) (l1 l2 : List (String × Json)) :
    lookupKey k (l1 ++ l2) = (lookupKey k l1).or (lookupKey k l2) := by
  induction l1 with
  | nil => simp [lookupKey]
  | cons p rest ih =>
    simp only [List.cons_append, lookupKey]
    split
    · rfl
    · exact ih

theorem lookupKey_map_value (k : String) (f : String → Json → Json) :
    ∀ l : List (String × Json),
    lookupKey k (l.map (fun p => (p.1, f p.1 p.2))) = (lookupKey k l).map (f k)
  | [] => rfl
  | p :: rest => by
    simp only [List.map_cons, lookupKey]
    by_cases h : p.1 = k
    · subst h
      simp
    · simp only [if_neg h]
      exact lookupKey_map_value k f rest

/-!
## Composite public key export / import
Embedding of pkg/crypto/tinkcrypto/primitive/composite/keyio/composite_key_export.go.
Protobuf marshalling and unmarshalling of the one message type flowing
through this file (EcdhAeadPublicKey) is modelled as the identity on the
message value, and a Tink keyset handle is identified with its underlying
keyset (insecurecleartextkeyset.Read wraps the keyset unchanged).
-/

/-- Byte strings. -/
abbrev Bytes := List Nat

/-- commonpb.EllipticCurveType restricted to the NIST curves this file
produces (getCurveProto returns no other value). -/
inductive EllipticCurveType where
  | nistP256
  | nistP384
  | nistP521
  deriving DecidableEq, Repr

/-- The symbolic proto enum name, as rendered by Go's CurveType.String(). -/
def EllipticCurveType.protoName : EllipticCurveType → String
  | .nistP256 => "NIST_P256"
  | .nistP384 => "NIST_P384"
  | .nistP521 => "NIST_P521"

/-- ecdhpb.KeyType. -/
inductive KeyType where
  | ec
  | okp
  deriving DecidableEq, Repr

/-- The symbolic proto enum name, as rendered by Go's KeyType.String(). -/
def KeyType.protoName : KeyType → String
  | .ec => "EC"
  | .okp => "OKP"

/-- ecdhpb.EcdhAeadPublicKey: the composite public key proto message built
by PublicKeyToKeysetHandle (source lines 244-259).  The AEAD template and
point format are carried as their symbolic names; the export path never
reads them. -/
structure EcdhAeadPublicKey where
  version : Nat
  curveType : EllipticCurveType
  keyType : KeyType
  aeadEnc : String
  ecPointFormat : String
  kid : String
  x : Bytes
  y : Bytes
  deriving DecidableEq, Repr

/-- tinkpb.KeyData_KeyMaterialType. -/
inductive KeyMaterialType where
  | symmetric
  | asymmetricPrivate
  | asymmetricPublic
  deriving DecidableEq, Repr

/-- tinkpb.KeyData. -/
structure KeyData where
  typeUrl : String
  value : EcdhAeadPublicKey
  keyMaterialType : KeyMaterialType
  deriving DecidableEq, Repr

/-- tinkpb.KeyStatusType. -/
inductive KeyStatusType where
  | enabled
  | disabled
  | destroyed
  deriving DecidableEq, Repr

/-- tinkpb.OutputPrefixType. -/
inductive OutputPrefixType where
  | tink
  | legacy
  | raw
  | crunchy
  deriving DecidableEq, Repr

/-- tinkpb.Keyset_Key. -/
structure KeysetKey where
  keyData : KeyData
  status : KeyStatusType
  keyId : Nat
  outputPrefixType : OutputPrefixType
  deriving DecidableEq, Repr

/-- tinkpb.Keyset. -/
structure Keyset where
  primaryKeyId : Nat
  key : List KeysetKey
  deriving DecidableEq, Repr

/-- cryptoapi.PublicKey, the JSON-encoded composite public key record
(fields kid, type, curve, x, y).  ktype models the Go field Type, whose
JSON tag is "type". -/
structure PublicKey where
  kid : String
  ktype : String
  curve : String
  x : Bytes
  y : Bytes
  deriving DecidableEq, Repr

/-- tinkpb.EncryptedKeyset (opaque to this file). -/
structure EncryptedKeyset where
  encryptedKeyset : Bytes
  deriving DecidableEq, Repr

/-- The composite EC public key type URL (source line 33). -/
def ecdhAESPublicKeyTypeURL : String :=
  "type.hyperledger.org/hyperledger.aries.crypto.tink.EcdhAesAeadPublicKey"

/-- getCurveProto (source lines 278-289): the fixed curve-name alias
table used by PublicKeyToKeysetHandle. -/
def getCurveProto (c : String) : Except String EllipticCurveType :=
  if c = "secp256r1" ∨ c = "NIST_P256" ∨ c = "P-256" ∨
      c = "EllipticCurveType_NIST_P256" then
    .ok .nistP256
  else if c = "secp384r1" ∨ c = "NIST_P384" ∨ c = "P-384" ∨
      c = "EllipticCurveType_NIST_P384" then
    .ok .nistP384
  else if c = "secp521r1" ∨ c = "NIST_P521" ∨ c = "P-521" ∨
      c = "EllipticCurveType_NIST_P521" then
    .ok .nistP521
  else
    .error "unsupported curve"

/-- Modelled from the spec: Tink hybrid.GetCurve, used by
buildCompositeKey purely as a validity check, recognizes the canonical
NIST curve names. -/
def hybridGetCurveOk (curve : String) : Bool :=
  curve == "NIST_P256" || curve == "NIST_P384" || curve == "NIST_P521"

/-- buildCompositeKey (source lines 132-146). -/
def buildCompositeKey (kid keyType curve : String) (x y : Bytes) :
    Except String PublicKey :=
  if hybridGetCurveOk curve then
    .ok { kid := kid, ktype := keyType, curve := curve, x := x, y := y }
  else
    .error "undefined curve"

/-- newECDHKey (source lines 160-174): proto unmarshalling is the identity
here; the key type must be EC. -/
def newECDHKey (pubKeyProto : EcdhAeadPublicKey) : Except String EcdhAeadPublicKey :=
  if pubKeyProto.keyType ≠ KeyType.ec then
    .error "undefined key type"
  else
    .ok pubKeyProto

/-- buildKey (source lines 125-130): the curve and key type are rendered
by their symbolic proto names. -/
def buildKey (c : EcdhAeadPublicKey) : Except String PublicKey :=
  buildCompositeKey c.kid c.keyType.protoName c.curveType.protoName c.x c.y

/-- protoToCompositeKey (source lines 106-123). -/
def protoToCompositeKey (keyData : KeyData) : Except String PublicKey :=
  if keyData.typeUrl = ecdhAESPublicKeyTypeURL then
    (newECDHKey keyData.value).bind buildKey
  else
    .error ("cannot export key with keyURL:" ++ keyData.typeUrl)

/-- write (source lines 62-85): seek the first key whose id equals the
primary key id and whose status is enabled, and emit it through
writePubKey/protoToCompositeKey; the JSON bytes written by the Go code
are modelled by the PublicKey record they encode. -/
def write (msg : Keyset) : Except String PublicKey :=
  match msg.key.find?
      (fun k2 => decide (k2.keyId = msg.primaryKeyId ∧ k2.status = KeyStatusType.enabled)) with
  | some key => protoToCompositeKey key.keyData
  | none => .error "key not written"

/-- PubKeyWriter.Write (source lines 53-55). -/
def PubKeyWriter.Write (ks : Keyset) : Except String PublicKey := write ks

/-- PubKeyWriter.WriteEncrypted (source lines 58-60): always fails. -/
def PubKeyWriter.WriteEncrypted (_ : EncryptedKeyset) : Except String Unit :=
  .error "write encrypted function not supported"

/-- writePubKeyFromKeyHandle (source lines 213-232).  Modelled from the
spec: handle.Public() fails with the "keyset contains a non-private key"
suffix on handles that already hold public material, in which case the
handle itself is used; all keysets built in this development hold public
material only.  WriteWithNoSecrets refuses keysets holding secret
material and otherwise hands the keyset to the writer. -/
def writePubKeyFromKeyHandle (handle : Keyset) : Except String PublicKey :=
  if handle.key.all (fun k2 => decide (k2.keyData.keyMaterialType = KeyMaterialType.asymmetricPublic)) then
    write handle
  else
    .error "exporting unencrypted secret key material is forbidden"

/-- ExtractPrimaryPublicKey (source lines 197-211): emit the primary
public key through the writer and re-parse the JSON (JSON round-trip of
the PublicKey record is the identity at the value level). -/
def ExtractPrimaryPublicKey (kh : Keyset) : Except String PublicKey :=
  writePubKeyFromKeyHandle kh

/-- newKeySet (source lines 291-310). -/
def newKeySet (tURL : String) (marshalledKey : EcdhAeadPublicKey)
    (keyMaterialType : KeyMaterialType) : Keyset :=
  { primaryKeyId := 1
    key := [{ keyData := { typeUrl := tURL, value := marshalledKey,
                           keyMaterialType := keyMaterialType }
              status := KeyStatusType.enabled
              keyId := 1
              outputPrefixType := OutputPrefixType.raw }] }

/-- PublicKeyToKeysetHandle (source lines 237-276): map the curve name
through getCurveProto, build the proto message with key type EC,
AES-256-GCM AEAD, uncompressed point format and version 0, and wrap it
as an asymmetric-public keyset with raw prefix, key id 1, primary id 1. -/
def PublicKeyToKeysetHandle (pubKey : PublicKey) : Except String Keyset :=
  match getCurveProto pubKey.curve with
  | .error e =>
    .error ("publicKeyToKeysetHandle: failed to convert curve string to proto: " ++ e)
  | .ok cp =>
    .ok (newKeySet ecdhAESPublicKeyTypeURL
      { version := 0
        curveType := cp
        keyType := KeyType.ec
        aeadEnc := "AES256GCM"
        ecPointFormat := "UNCOMPRESSED"
        kid := pubKey.kid
        x := pubKey.x
        y := pubKey.y }
      KeyMaterialType.asymmetricPublic)

/-- The twelve curve names accepted by getCurveProto. -/
def supportedCurveNames : List String :=
  ["secp256r1", "NIST_P256", "P-256", "EllipticCurveType_NIST_P256",
   "secp384r1", "NIST_P384", "P-384", "EllipticCurveType_NIST_P384",
   "secp521r1", "NIST_P521", "P-521", "EllipticCurveType_NIST_P521"]

/-- A public key record with the alias curve name P-256: importing and
re-extracting it yields the canonical curve name instead. -/
def pkAliasP256 : PublicKey :=
  { kid := "kid-1", ktype := "EC", curve := "P-256", x := [1, 2], y := [3, 4] }

/-- C5 counterexample: for the supported alias curve name P-256 the
round trip extract_primary_public_key(public_key_to_keyset_handle(pk))
succeeds but returns the canonical curve name NIST_P256, so the result is
not equal to pk: the claimed identity fails. -/
theorem roundtrip_not_identity_on_alias_curve :
    (PublicKeyToKeysetHandle pkAliasP256).bind ExtractPrimaryPublicKey =
      .ok { kid := "kid-1", ktype := "EC", curve := "NIST_P256", x := [1, 2], y := [3, 4] } ∧
    ({ kid := "kid-1", ktype := "EC", curve := "NIST_P256", x := [1, 2], y := [3, 4] } : PublicKey)
      ≠ pkAliasP256 :=
  ⟨rfl, by decide⟩

/-- C5 (amended): for every PublicKey record pk whose curve name is in the
supported alias table, extracting the primary public key from the keyset
handle built from pk preserves kid, x and y, replaces the curve by its
canonical NIST proto name, and replaces the type by EC; the result equals
pk exactly when pk was already in that canonical form. -/
theorem extract_after_import_canonicalizes (pk : PublicKey) (cp : EllipticCurveType)
    (h : getCurveProto pk.curve = .ok cp) :
    (PublicKeyToKeysetHandle pk).bind ExtractPrimaryPublicKey =
      .ok { kid := pk.kid, ktype := "EC", curve := cp.protoName, x := pk.x, y := pk.y } ∧
    (({ kid := pk.kid, ktype := "EC", curve := cp.protoName, x := pk.x, y := pk.y } : PublicKey) = pk
      ↔ pk.ktype = "EC" ∧ pk.curve = cp.protoName) := by
  constructor
  · cases cp <;>
      simp [PublicKeyToKeysetHandle, h, ExtractPrimaryPublicKey, writePubKeyFromKeyHandle,
        write, newKeySet, protoToCompositeKey, newECDHKey, buildKey, buildCompositeKey,
        hybridGetCurveOk, EllipticCurveType.protoName, KeyType.protoName,
        ecdhAESPublicKeyTypeURL, Except.bind]
  · constructor
    · intro hh
      rw [← hh]
      exact ⟨rfl, rfl⟩
    · intro ⟨h1, h2⟩
      cases pk
      simp only at h1 h2
      simp [h1, h2]

/-- A public key record already in canonical form. -/
def pkCanonicalP384 : PublicKey :=
  { kid := "k", ktype := "EC", curve := "NIST_P384", x := [9], y := [8] }

/-- Witness for C5 (amended) at a canonical record. -/
theorem extract_after_import_canonicalizes_witness :
    (PublicKeyToKeysetHandle pkCanonicalP384).bind ExtractPrimaryPublicKey =
      .ok pkCanonicalP384 ∧
    (pkCanonicalP384 = pkCanonicalP384 ↔
      pkCanonicalP384.ktype = "EC" ∧
      pkCanonicalP384.curve = EllipticCurveType.nistP384.protoName) :=
  extract_after_import_canonicalizes pkCanonicalP384 EllipticCurveType.nistP384 rfl

/-- C9: WriteEncrypted fails on every encrypted keyset with the same
fixed error, so no encrypted keyset can be exported through PubKeyWriter;
only Write on a cleartext keyset can succeed. -/
theorem writeEncrypted_always_fails (eks : EncryptedKeyset) :
    PubKeyWriter.WriteEncrypted eks = .error "write encrypted function not supported" :=
  rfl

/-- C10: the alias table of getCurveProto also accepts the long proto
enum spellings (mapping them to the corresponding NIST curve), and every
string outside the twelve-name table fails with the unsupported-curve
error. -/
theorem getCurveProto_alias_table :
    getCurveProto "EllipticCurveType_NIST_P256" = .ok EllipticCurveType.nistP256 ∧
    getCurveProto "EllipticCurveType_NIST_P384" = .ok EllipticCurveType.nistP384 ∧
    getCurveProto "EllipticCurveType_NIST_P521" = .ok EllipticCurveType.nistP521 ∧
    ∀ s : String, s ∉ supportedCurveNames → getCurveProto s = .error "unsupported curve" := by
  refine ⟨rfl, rfl, rfl, ?_⟩
  intro s hs
  simp only [supportedCurveNames, List.mem_cons, List.not_mem_nil, or_false, not_or] at hs
  obtain ⟨h1, h2, h3, h4, h5, h6, h7, h8, h9, h10, h11, h12⟩ := hs
  simp [getCurveProto, h1, h2, h3, h4, h5, h6, h7, h8, h9, h10, h11, h12]

/-- Witness for C10 at a name outside the table. -/
theorem getCurveProto_alias_table_witness :
    getCurveProto "curve25519" = .error "unsupported curve" :=
  getCurveProto_alias_table.2.2.2 "curve25519" (by decide)

/-!
## Expirable schema cache
Embedding of ExpirableSchemaCache (credential.go lines 226-323).  Unix
times are modelled as naturals (seconds); the current time is passed
explicitly where the Go code calls time.Now().  The backing fastcache is
modelled by its observable map behavior.
-/

/-- Modelled from the spec: the bounded byte-cache backing the schema
cache (fastcache / any conforming put-get pair), restricted to its
observable map behavior; the size bound and eviction are not observable
in any claim. -/
def ByteCache := List (String × Bytes)

/-- Set inserts or replaces the value under a key. -/
def cacheSet (c : ByteCache) (k : String) (v : Bytes) : ByteCache :=
  (k, v) :: List.filter (fun p => p.1 != k) c

/-- HasGet returns the value under a key if present. -/
def cacheGet (c : ByteCache) (k : String) : Option Bytes :=
  (List.find? (fun p => p.1 == k) c).map Prod.snd

/-- Del removes the entry under a key. -/
def cacheDel (c : ByteCache) (k : String) : ByteCache :=
  List.filter (fun p => p.1 != k) c

/-- binary.LittleEndian.PutUint64: the 8 little-endian bytes of n. -/
def putUint64LE (n : Nat) : Bytes :=
  [n % 256, n / 256 % 256, n / 65536 % 256, n / 16777216 % 256,
   n / 4294967296 % 256, n / 1099511627776 % 256,
   n / 281474976710656 % 256, n / 72057594037927936 % 256]

/-- binary.LittleEndian.Uint64 on the first 8 bytes. -/
def readUint64LE : Bytes → Nat
  | b0 :: b1 :: b2 :: b3 :: b4 :: b5 :: b6 :: b7 :: _ =>
    b0 + 256 * b1 + 65536 * b2 + 16777216 * b3 + 4294967296 * b4 +
      1099511627776 * b5 + 281474976710656 * b6 + 72057594037927936 * b7
  | _ => 0

/-- ExpirableSchemaCache (source lines 227-230): a byte cache plus a TTL.
The TTL is a natural (the claim restricts itself to non-negative TTLs). -/
structure ExpirableSchemaCache where
  cache : ByteCache
  expiration : Nat

/-- ExpirableSchemaCache.Put (source lines 294-305): store the value
prefixed by the 8-byte little-endian expiry timestamp now + TTL. -/
def ExpirableSchemaCache.Put (sc : ExpirableSchemaCache) (now : Nat) (k : String)
    (v : Bytes) : ExpirableSchemaCache :=
  let expires := now + sc.expiration
  let ve := putUint64LE expires ++ v
  { sc with cache := cacheSet sc.cache k ve }

/-- ExpirableSchemaCache.Get (source lines 309-323): absent keys and
entries whose stored expiry is strictly below now yield none (Go: false),
and an expired entry is deleted before returning. -/
def ExpirableSchemaCache.Get (sc : ExpirableSchemaCache) (now : Nat) (k : String) :
    Option Bytes × ExpirableSchemaCache :=
  match cacheGet sc.cache k with
  | none => (none, sc)
  | some b =>
    let expires := readUint64LE b
    if expires < now then
      (none, { sc with cache := cacheDel sc.cache k })
    else
      (some (List.drop 8 b), sc)

theorem readUint64LE_putUint64LE (n : Nat) (rest : Bytes) (h : n < 18446744073709551616) :
    readUint64LE (putUint64LE n ++ rest) = n := by
  simp only [putUint64LE, List.cons_append, List.nil_append, readUint64LE]
  omega

theorem drop8_putUint64LE (n : Nat) (rest : Bytes) :
    List.drop 8 (putUint64LE n ++ rest) = rest := by
  simp [putUint64LE]

theorem cacheGet_cacheDel (c : ByteCache) (k : String) :
    cacheGet (cacheDel c k) k = none := by
  induction c with
  | nil => rfl
  | cons p rest ih =>
    simp only [cacheDel, List.filter] at ih ⊢
    by_cases h : p.1 == k
    · rw [show (p.1 != k) = false by simp [bne, h]]
      exact ih
    · rw [show (p.1 != k) = true by simp [bne]; simpa using h]
      simp only [cacheGet, List.find?] at ih ⊢
      rw [show (p.1 == k) = false by simpa using h]
      exact ih

/-- C6: schema cache contract.  With a non-negative TTL (TTLs are
naturals here) and timestamps inside the 64-bit range: a Get immediately
after a Put of the same key returns the stored bytes and leaves the cache
unchanged; a Get of an absent key returns none; a Get of an entry whose
stored expiry timestamp is strictly less than the current time returns
none and removes the entry from the cache before returning. -/
theorem expirableSchemaCache_contract (sc : ExpirableSchemaCache) (now : Nat)
    (k : String) (v : Bytes) (hrange : now + sc.expiration < 18446744073709551616) :
    (sc.Put now k v).Get now k = (some v, sc.Put now k v) ∧
    (∀ (sc2 : ExpirableSchemaCache) (now2 : Nat),
      cacheGet sc2.cache k = none → sc2.Get now2 k = (none, sc2)) ∧
    (∀ (sc2 : ExpirableSchemaCache) (now2 : Nat) (b : Bytes),
      cacheGet sc2.cache k = some b → readUint64LE b < now2 →
      sc2.Get now2 k = (none, { sc2 with cache := cacheDel sc2.cache k }) ∧
        cacheGet (cacheDel sc2.cache k) k = none) := by
  refine ⟨?_, ?_, ?_⟩
  · have hget : cacheGet (sc.Put now k v).cache k = some (putUint64LE (now + sc.expiration) ++ v) := by
      simp [ExpirableSchemaCache.Put, cacheSet, cacheGet]
    simp only [ExpirableSchemaCache.Get, hget]
    rw [readUint64LE_putUint64LE _ _ hrange]
    rw [if_neg (by omega)]
    rw [drop8_putUint64LE]
  · intro sc2 now2 habs
    simp [ExpirableSchemaCache.Get, habs]
  · intro sc2 now2 b hb hexp
    constructor
    · simp only [ExpirableSchemaCache.Get, hb]
      rw [if_pos hexp]
    · exact cacheGet_cacheDel sc2.cache k

/-- Witness for C6 at a concrete cache, key and time. -/
theorem expirableSchemaCache_contract_witness :
    (({ cache := [], expiration := 10 } : ExpirableSchemaCache).Put 1000 "u" [7]).Get 1000 "u" =
      (some [7], ({ cache := [], expiration := 10 } : ExpirableSchemaCache).Put 1000 "u" [7]) :=
  (expirableSchemaCache_contract { cache := [], expiration := 10 } 1000 "u" [7]
    (by norm_num)).1

/-!
## Schema loader
Embedding of getSchemaLoader / getJSONSchema / loadJSONSchema
(credential.go lines 827-903).  The HTTP client is an injected
collaborator and is modelled as a function from a URL to either a
transport error or a status code plus body; the list of URLs for which an
HTTP GET was attempted is returned alongside each result so that
"no HTTP call" is an observable fact.  The SchemaCache interface is
modelled by the same observable map behavior as ByteCache. -/

/-- The injected HTTP client (net/http): transport error, or status and
body. -/
def HTTPClient := String → Except String (Nat × Bytes)

/-- Errors of the schema loading path. -/
inductive SchemaErr where
  | transport (msg : String)
  | httpStatus (code : Nat)
  | custom (url : String) (inner : SchemaErr)
  deriving DecidableEq, Repr

/-- TypedID: the {id, type} pair used by credential schemas, status,
terms of use and refresh service.  Modelled from the spec: the source
file uses but does not define it; the type member may be a string or a
sequence of strings and is carried verbatim. -/
structure TypedID where
  id : String
  typ : Json
  deriving Repr, Inhabited

/-- https://www.w3.org/TR/vc-data-model/#data-schemas (source line 187). -/
def jsonSchema2018Type : String := "JsonSchemaValidator2018"

/-- The type member of a declared schema equals the literal
JsonSchemaValidator2018. -/
def isJsonSchema2018 (t : Json) : Bool :=
  match t with
  | .str s => s == jsonSchema2018Type
  | _ => false

/-- CredentialSchemaLoader (source lines 241-245): HTTP client plus an
optional schema cache (the jsonLoader member only carries the default
schema document and is represented by the SchemaLoaderResult below). -/
structure CredentialSchemaLoader where
  client : HTTPClient
  cache : Option ByteCache

/-- The schema document chosen for Phase 1 validation: the embedded
default schema, or the raw bytes of a custom schema. -/
inductive SchemaLoaderResult where
  | defaultSchema
  | custom (bytes : Bytes)
  deriving Repr

/-- loadJSONSchema (source lines 878-903): only HTTP 200 is acceptable;
any other status yields an error carrying the status code; the body is
returned as raw bytes. -/
def loadJSONSchema (url : String) (client : HTTPClient) : Except SchemaErr Bytes :=
  match client url with
  | .error e => .error (.transport e)
  | .ok (status, body) =>
    if status ≠ 200 then .error (.httpStatus status)
    else .ok body

/-- getJSONSchema (source lines 854-876): cache-hit-first when a cache is
wired; on a miss the schema is fetched over HTTP and put into the cache.
Returns the result, the updated cache, and the URLs fetched over HTTP. -/
def getJSONSchema (url : String) (loader : CredentialSchemaLoader) :
    Except SchemaErr Bytes × Option ByteCache × List String :=
  match loader.cache with
  | none => (loadJSONSchema url loader.client, none, [url])
  | some c =>
    match cacheGet c url with
    | some b => (.ok b, some c, [])
    | none =>
      match loadJSONSchema url loader.client with
      | .error e => (.error e, some c, [url])
      | .ok b => (.ok b, some (cacheSet c url b), [url])

/-- The loop of getSchemaLoader (source lines 832-844): scan the declared
schemas in order; the first one whose type is JsonSchemaValidator2018 is
fetched; unsupported types are logged and skipped; if none is supported
the default schema is used. -/
def schemaLoaderLoop (loader : CredentialSchemaLoader) :
    List TypedID → Except SchemaErr SchemaLoaderResult × Option ByteCache × List String
  | [] => (.ok .defaultSchema, loader.cache, [])
  | s :: rest =>
    if isJsonSchema2018 s.typ then
      match getJSONSchema s.id loader with
      | (.error e, c, calls) => (.error (.custom s.id e), c, calls)
      | (.ok b, c, calls) => (.ok (.custom b), c, calls)
    else schemaLoaderLoop loader rest

/-- getSchemaLoader (source lines 827-848). -/
def getSchemaLoader (schemas : List TypedID) (disabledCustomSchema : Bool)
    (loader : CredentialSchemaLoader) :
    Except SchemaErr SchemaLoaderResult × Option ByteCache × List String :=
  if disabledCustomSchema then (.ok .defaultSchema, loader.cache, [])
  else schemaLoaderLoop loader schemas

/-- C7: schema resolution.  (a) With custom schema checks disabled the
default embedded schema is chosen without any HTTP call.  (b) When no
declared schema has type JsonSchemaValidator2018, every schema is skipped
and the default is chosen without any HTTP call.  (c) The first declared
schema of type JsonSchemaValidator2018 is the one resolved, via
getJSONSchema of its id.  (d) A cache hit returns the cached bytes with
no HTTP call.  (e) A cache miss fetches over HTTP; status 200 succeeds
with the body and fills the cache.  (f) Any other status yields an error
carrying the status code. -/
theorem schemaLoader_resolution :
    (∀ (schemas : List TypedID) (loader : CredentialSchemaLoader),
      getSchemaLoader schemas true loader = (.ok .defaultSchema, loader.cache, [])) ∧
    (∀ (schemas : List TypedID) (loader : CredentialSchemaLoader),
      (∀ s ∈ schemas, isJsonSchema2018 s.typ = false) →
      getSchemaLoader schemas false loader = (.ok .defaultSchema, loader.cache, [])) ∧
    (∀ (pre rest : List TypedID) (s : TypedID) (loader : CredentialSchemaLoader),
      (∀ p ∈ pre, isJsonSchema2018 p.typ = false) →
      isJsonSchema2018 s.typ = true →
      getSchemaLoader (pre ++ s :: rest) false loader =
        (match getJSONSchema s.id loader with
         | (.error e, c, calls) => (.error (.custom s.id e), c, calls)
         | (.ok b, c, calls) => (.ok (.custom b), c, calls))) ∧
    (∀ (url : String) (loader : CredentialSchemaLoader) (c : ByteCache) (b : Bytes),
      loader.cache = some c → cacheGet c url = some b →
      getJSONSchema url loader = (.ok b, some c, [])) ∧
    (∀ (url : String) (loader : CredentialSchemaLoader) (c : ByteCache) (body : Bytes),
      loader.cache = some c → cacheGet c url = none →
      loader.client url = .ok (200, body) →
      getJSONSchema url loader = (.ok body, some (cacheSet c url body), [url])) ∧
    (∀ (url : String) (client : HTTPClient) (st : Nat) (body : Bytes),
      client url = .ok (st, body) → st ≠ 200 →
      loadJSONSchema url client = .error (.httpStatus st)) := by
  refine ⟨?_, ?_, ?_, ?_, ?_, ?_⟩
  · intro schemas loader
    rfl
  · intro schemas loader hall
    induction schemas with
    | nil => rfl
    | cons s rest ih =>
      have hs : isJsonSchema2018 s.typ = false := hall s (List.mem_cons_self s rest)
      have hrest : ∀ p ∈ rest, isJsonSchema2018 p.typ = false := fun p hp =>
        hall p (List.mem_cons_of_mem s hp)
      simpa [getSchemaLoader, schemaLoaderLoop, hs] using ih hrest
  · intro pre rest s loader hpre hs
    induction pre with
    | nil =>
      simp [getSchemaLoader, schemaLoaderLoop, hs]
    | cons p pre2 ih =>
      have hp : isJsonSchema2018 p.typ = false := hpre p (List.mem_cons_self p pre2)
      have hpre2 : ∀ q ∈ pre2, isJsonSchema2018 q.typ = false := fun q hq =>
        hpre q (List.mem_cons_of_mem p hq)
      simpa [getSchemaLoader, schemaLoaderLoop, hp] using ih hpre2
  · intro url loader c b hc hget
    simp [getJSONSchema, hc, hget]
  · intro url loader c body hc hget hclient
    simp [getJSONSchema, hc, hget, loadJSONSchema, hclient]
  · intro url client st body hclient hst
    simp [loadJSONSchema, hclient, hst]

/-- Witness for C7: a loader whose cache holds the URL returns the cached
bytes without an HTTP call (the client is never consulted). -/
theorem schemaLoader_resolution_witness :
    getJSONSchema "https://schema.example/v1"
      { client := fun _ => .error "no network",
        cache := some [("https://schema.example/v1", [1, 2, 3])] } =
      (.ok [1, 2, 3], some [("https://schema.example/v1", [1, 2, 3])], []) :=
  schemaLoader_resolution.2.2.2.1 "https://schema.example/v1"
    { client := fun _ => .error "no network",
      cache := some [("https://schema.example/v1", [1, 2, 3])] }
    [("https://schema.example/v1", [1, 2, 3])] [1, 2, 3] rfl rfl

/-!
## Credential decoding
Embedding of the raw credential codec, the polymorphic field decoders,
the validator and the NewCredential pipeline (credential.go).  Helpers of
the verifiable package that are used but not defined in the source file
(decodeType, decodeContext, the custom-field marshalling pair, TypedID,
Proof, the JWT detection functions and toMap) are modelled from the spec
and marked as such.
-/

/-- https://www.w3.org/TR/vc-data-model/#base-context (source line 191). -/
def baseContext : String := "https://www.w3.org/2018/credentials/v1"

/-- https://www.w3.org/TR/vc-data-model/#types (source line 194). -/
def vcType : String := "VerifiableCredential"

/-- Issuer of the Verifiable Credential (source lines 329-332). -/
structure Issuer where
  id : String
  name : String
  deriving DecidableEq, Repr

/-- Credential: the canonical in-memory VC (source lines 338-355).
Subject, Proof and Evidence are opaque JSON values; absent optional
members are none. -/
structure Credential where
  context : List String
  customContext : List Json
  id : String
  types : List String
  subject : Option Json
  issuer : Issuer
  issued : Option String
  expired : Option String
  proof : Option Json
  status : Option TypedID
  schemas : List TypedID
  evidence : Option Json
  termsOfUse : List TypedID
  refreshService : Option TypedID
  customFields : List (String × Json)
  deriving Repr

/-- rawCredential (source lines 358-375): the mapped members in their
polymorphic raw shapes plus the unknown-member sink.  A JSON null for a
pointer or interface member decodes like an absent member, and an absent
id decodes to the empty string, as in encoding/json. -/
structure RawCredential where
  context : Option Json
  id : String
  typ : Option Json
  subject : Option Json
  issued : Option String
  expired : Option String
  proof : Option Json
  status : Option TypedID
  issuer : Option Json
  schema : Option Json
  evidence : Option Json
  termsOfUse : List TypedID
  refreshService : Option TypedID
  customFields : List (String × Json)
  deriving Repr

/-- The thirteen reserved (mapped) top-level member names of
rawCredential, in struct order. -/
def reservedKeys : List String :=
  ["@context", "id", "type", "credentialSubject", "issuanceDate", "expirationDate",
   "proof", "credentialStatus", "issuer", "credentialSchema", "evidence",
   "termsOfUse", "refreshService"]

/-- Modelled from the spec: Go time parsing and formatting are stdlib;
dates are RFC 3339 date-times.  The model recognizes the canonical forms
full-date T full-time with second precision and a Z or numeric offset;
decoding is thereby narrowed to canonical timestamps, which re-marshal
to the identical string (every claim in scope uses canonical
timestamps). -/
def isTimeTail : List Char → Bool
  | ['Z'] => true
  | [sign, h1, h2, ':', m1, m2] =>
    (sign == '+' || sign == '-') && h1.isDigit && h2.isDigit && m1.isDigit && m2.isDigit
  | _ => false

/-- Canonical RFC 3339 date-time check (see isTimeTail). -/
def isRFC3339 (s : String) : Bool :=
  match s.data with
  | y1 :: y2 :: y3 :: y4 :: '-' :: m1 :: m2 :: '-' :: d1 :: d2 :: 'T' ::
      h1 :: h2 :: ':' :: mi1 :: mi2 :: ':' :: s1 :: s2 :: rest =>
    y1.isDigit && y2.isDigit && y3.isDigit && y4.isDigit && m1.isDigit && m2.isDigit &&
    d1.isDigit && d2.isDigit && h1.isDigit && h2.isDigit && mi1.isDigit && mi2.isDigit &&
    s1.isDigit && s2.isDigit && isTimeTail rest
  | _ => false

/-- Lookup treating an explicit JSON null like an absent member, as
encoding/json does for pointer and interface struct members. -/
def lookupNonNull (fs : List (String × Json)) (k : String) : Option Json :=
  match lookupKey k fs with
  | some .null => none
  | r => r

/-- Modelled from the spec: decoding a TypedID member with encoding/json
struct semantics: the value must be an object; its id member must be a
string when present (empty when absent or null); its type member is
carried verbatim (null when absent); unknown members are dropped. -/
def decodeTypedID (v : Json) : Except String TypedID :=
  match v with
  | .obj fs =>
    match lookupKey "id" fs with
    | none => .ok { id := "", typ := (lookupKey "type" fs).getD Json.null }
    | some .null => .ok { id := "", typ := (lookupKey "type" fs).getD Json.null }
    | some (.str s) => .ok { id := s, typ := (lookupKey "type" fs).getD Json.null }
    | some _ => .error "typed ID: id is not a string"
  | _ => .error "typed ID of unsupported format"

/-- Modelled from the spec: re-emitting a TypedID emits its id and type
members. -/
def marshalTypedID (t : TypedID) : Json :=
  .obj [("id", .str t.id), ("type", t.typ)]

/-- Decode each element of a JSON array as a TypedID. -/
def decodeTypedIDList : List Json → Option (List TypedID)
  | [] => some []
  | v :: rest =>
    match decodeTypedID v with
    | .ok t => (decodeTypedIDList rest).map (t :: ·)
    | .error _ => none

/-- The string elements of a JSON array, when all elements are strings. -/
def allStrings : List Json → Option (List String)
  | [] => some []
  | .str s :: rest => (allStrings rest).map (s :: ·)
  | _ => none

/-- Modelled from the spec: the type decoder accepts a string or a
non-empty array of strings, preserving order (the helper decodeType is
used by the source but lives outside src). -/
def decodeType (v : Option Json) : Except String (List String) :=
  match v with
  | some (.str s) => .ok [s]
  | some (.arr es) =>
    if es.isEmpty then .error "vc types: empty type array"
    else
      match allStrings es with
      | some ss => .ok ss
      | none => .error "vc types: array element is not a string"
  | _ => .error "vc type of unknown structure"

/-- Split a context array into its string elements and its non-string
(object) elements, in order. -/
def splitContext : List Json → Option (List String × List Json)
  | [] => some ([], [])
  | .str s :: rest => (splitContext rest).map (fun p => (s :: p.1, p.2))
  | .obj fs :: rest => (splitContext rest).map (fun p => (p.1, Json.obj fs :: p.2))
  | _ => none

/-- Modelled from the spec: the context decoder (the helper decodeContext
lives outside src) accepts a string equal to the base context, or a
non-empty array of strings and objects whose strings, taken in order,
start with the base context; strings go to context, objects go to the
custom context; anything else is rejected. -/
def decodeContext (v : Option Json) : Except String (List String × List Json) :=
  match v with
  | some (.str s) =>
    if s = baseContext then .ok ([s], [])
    else .error "vc context: missing base context"
  | some (.arr es) =>
    match splitContext es with
    | none => .error "vc context: unexpected element type"
    | some (strs, objs) =>
      match strs with
      | [] => .error "vc context: missing base context"
      | s0 :: _ =>
        if s0 = baseContext then .ok (strs, objs)
        else .error "vc context: missing base context"
  | _ => .error "vc context of unknown structure"

/-- getStringEntry inside decodeIssuer (source lines 501-513): an absent
member is the empty string; a present member must be a string. -/
def getStringEntry (fs : List (String × Json)) (k : String) : Except String String :=
  match lookupKey k fs with
  | none => .ok ""
  | some (.str s) => .ok s
  | some _ => .error ("value of key " ++ k ++ " is not a string")

/-- decodeIssuer (source lines 500-540): a string is the issuer id; an
object needs a non-empty string id and may carry a string name; anything
else is rejected. -/
def decodeIssuer (issuer : Option Json) : Except String Issuer :=
  match issuer with
  | some (.str s) => .ok { id := s, name := "" }
  | some (.obj fs) =>
    match getStringEntry fs "id" with
    | .error e => .error e
    | .ok i =>
      if i = "" then .error "issuer ID is not defined"
      else
        match getStringEntry fs "name" with
        | .error e => .error e
        | .ok n => .ok { id := i, name := n }
  | _ => .error "unsupported format of issuer"

/-- decodeCredentialSchema (source lines 545-562): a single object or an
array of objects; in Go the single-object shape is tried first and the
array shape second, each with TypedID struct decoding. -/
def decodeCredentialSchema (v : Json) : Except String (List TypedID) :=
  match v with
  | .obj _ =>
    match decodeTypedID v with
    | .ok t => .ok [t]
    | .error _ => .error "verifiable credential schema of unsupported format"
  | .arr es =>
    match decodeTypedIDList es with
    | some ts => .ok ts
    | none => .error "verifiable credential schema of unsupported format"
  | _ => .error "verifiable credential schema of unsupported format"

/-- Member decoding for the plain string member id. -/
def decodeStringField (fs : List (String × Json)) (k : String) : Except String String :=
  match lookupKey k fs with
  | none => .ok ""
  | some .null => .ok ""
  | some (.str s) => .ok s
  | some _ => .error ("unmarshal " ++ k ++ ": not a string")

/-- Member decoding for a time.Time pointer member (see isRFC3339). -/
def decodeDateField (fs : List (String × Json)) (k : String) : Except String (Option String) :=
  match lookupKey k fs with
  | none => .ok none
  | some .null => .ok none
  | some (.str s) =>
    if isRFC3339 s then .ok (some s)
    else .error ("unmarshal " ++ k ++ ": not an RFC3339 date-time")
  | some _ => .error ("unmarshal " ++ k ++ ": not a string")

/-- Modelled from the spec: Proof is an opaque object preserved
verbatim; a non-object proof member fails decoding. -/
def decodeProofField (fs : List (String × Json)) : Except String (Option Json) :=
  match lookupKey "proof" fs with
  | none => .ok none
  | some .null => .ok none
  | some (.obj pfs) => .ok (some (.obj pfs))
  | some _ => .error "unmarshal proof: not an object"

/-- Member decoding for an optional TypedID pointer member. -/
def decodeOptTypedID (fs : List (String × Json)) (k : String) :
    Except String (Option TypedID) :=
  match lookupKey k fs with
  | none => .ok none
  | some .null => .ok none
  | some v => (decodeTypedID v).map some

/-- Member decoding for the termsOfUse slice member. -/
def decodeTermsOfUse (fs : List (String × Json)) : Except String (List TypedID) :=
  match lookupKey "termsOfUse" fs with
  | none => .ok []
  | some .null => .ok []
  | some (.arr es) =>
    match decodeTypedIDList es with
    | some ts => .ok ts
    | none => .error "unmarshal termsOfUse"
  | some _ => .error "unmarshal termsOfUse"

/-- The unknown-member sink: every top-level member whose name is not
reserved (modelled from the spec, section 4.4). -/
def customOf (fs : List (String × Json)) : List (String × Json) :=
  fs.filter (fun p => !(reservedKeys.contains p.1))

/-- rawCredential.UnmarshalJSON together with the custom-fields sink
(source lines 387-399; the sink is modelled from the spec): mapped
members are consumed, every remaining top-level member lands in
customFields. -/
def unmarshalRawCredential (d : Json) : Except String RawCredential :=
  match d with
  | .obj fs =>
    match decodeStringField fs "id" with
    | .error e => .error e
    | .ok i =>
      match decodeDateField fs "issuanceDate" with
      | .error e => .error e
      | .ok issued =>
        match decodeDateField fs "expirationDate" with
        | .error e => .error e
        | .ok expired =>
          match decodeProofField fs with
          | .error e => .error e
          | .ok proof =>
            match decodeOptTypedID fs "credentialStatus" with
            | .error e => .error e
            | .ok status =>
              match decodeOptTypedID fs "refreshService" with
              | .error e => .error e
              | .ok refresh =>
                match decodeTermsOfUse fs with
                | .error e => .error e
                | .ok terms =>
                  .ok { context := lookupNonNull fs "@context"
                        id := i
                        typ := lookupNonNull fs "type"
                        subject := lookupNonNull fs "credentialSubject"
                        issued := issued
                        expired := expired
                        proof := proof
                        status := status
                        issuer := lookupNonNull fs "issuer"
                        schema := lookupNonNull fs "credentialSchema"
                        evidence := lookupNonNull fs "evidence"
                        termsOfUse := terms
                        refreshService := refresh
                        customFields := customOf fs }
  | _ => .error "unmarshal raw credential: not a JSON object"

/-- newCredential (source lines 703-736): build the Credential from the
raw form through the polymorphic decoders. -/
def newCredentialFromRaw (raw : RawCredential) (schemas : List TypedID) :
    Except String Credential :=
  match decodeType raw.typ with
  | .error e => .error ("fill credential types from raw: " ++ e)
  | .ok types =>
    match decodeIssuer raw.issuer with
    | .error e => .error ("fill credential issuer from raw: " ++ e)
    | .ok issuer =>
      match decodeContext raw.context with
      | .error e => .error ("fill credential context from raw: " ++ e)
      | .ok (context, customContext) =>
        .ok { context := context
              customContext := customContext
              id := raw.id
              types := types
              subject := raw.subject
              issuer := issuer
              issued := raw.issued
              expired := raw.expired
              proof := raw.proof
              status := raw.status
              schemas := schemas
              evidence := raw.evidence
              termsOfUse := raw.termsOfUse
              refreshService := raw.refreshService
              customFields := raw.customFields }

/-!
### Validation
defaultSchemaCheck translates the embedded default JSON-Schema document
(source lines 27-184) under JSON Schema draft-04 semantics as gojsonschema
applies them: all assertion keywords of a schema object apply
independently; positional items constrain only present indices;
additionalItems without a sibling items array has no effect; oneOf needs
exactly one valid branch, anyOf at least one.  The uri and date-time
format checkers are modelled by nonemptiness and the canonical RFC 3339
check; uniqueItems on the context array is not modelled (no claim
depends on it). -/

/-- format uri, modelled: a nonempty string. -/
def isURI (s : String) : Bool := !(s == "")

/-- definitions.typedID of the default schema. -/
def typedIDSchemaOk (v : Json) : Bool :=
  match v with
  | .obj fs =>
    (match lookupKey "id" fs with
     | some (.str s) => isURI s
     | _ => false) &&
    (match lookupKey "type" fs with
     | some (.str _) => true
     | some (.arr es) => es.all (fun e => match e with | .str _ => true | _ => false)
     | _ => false)
  | _ => false

/-- definitions.typedIDs of the default schema: one typedID or an array
of typedIDs. -/
def typedIDsSchemaOk (v : Json) : Bool :=
  typedIDSchemaOk v ||
    (match v with
     | .arr es => es.all typedIDSchemaOk
     | _ => false)

/-- properties.@context of the default schema: an array whose first
element, when present, is the base context string, and whose further
elements are objects or strings. -/
def contextPropOk (v : Json) : Bool :=
  match v with
  | .arr es =>
    (match es with
     | [] => true
     | .str s :: _ => s == baseContext
     | _ => false) &&
    (es.drop 1).all (fun e => match e with | .obj _ => true | .str _ => true | _ => false)
  | _ => false

/-- properties.type of the default schema: oneOf a string equal to
VerifiableCredential or an array whose first element is the string
VerifiableCredential, with the sibling keyword minItems 2 applying to
arrays. -/
def typePropOk (v : Json) : Bool :=
  match v with
  | .str s => s == vcType
  | .arr es =>
    (match es with
     | [] => true
     | .str s :: _ => s == vcType
     | _ => false) &&
    decide (2 ≤ es.length)
  | _ => false

/-- properties.credentialSubject of the default schema. -/
def subjectPropOk (v : Json) : Bool :=
  match v with
  | .arr _ => true
  | .obj _ => true
  | _ => false

/-- properties.issuer of the default schema. -/
def issuerPropOk (v : Json) : Bool :=
  match v with
  | .str s => isURI s
  | .obj fs =>
    match lookupKey "id" fs with
    | some (.str _) => true
    | _ => false
  | _ => false

/-- properties.proof of the default schema. -/
def proofPropOk (v : Json) : Bool :=
  match v with
  | .obj fs =>
    match lookupKey "type" fs with
    | some (.str _) => true
    | _ => false
  | _ => false

/-- format date-time members of the default schema. -/
def datePropOk (v : Json) : Bool :=
  match v with
  | .str s => isRFC3339 s
  | _ => false

/-- A property check applies only when the member is present. -/
def optOk (fs : List (String × Json)) (k : String) (p : Json → Bool) : Bool :=
  match lookupKey k fs with
  | none => true
  | some v => p v

/-- The embedded default JSON-Schema document (source lines 27-184)
applied to a document, under the draft-04 semantics described above. -/
def defaultSchemaCheck (d : Json) : Bool :=
  match d with
  | .obj fs =>
    (["@context", "type", "credentialSubject", "issuer", "issuanceDate"].all
      (fun k => (lookupKey k fs).isSome)) &&
    optOk fs "@context" contextPropOk &&
    optOk fs "id" (fun v => match v with | .str s => isURI s | _ => false) &&
    optOk fs "type" typePropOk &&
    optOk fs "credentialSubject" subjectPropOk &&
    optOk fs "issuer" issuerPropOk &&
    optOk fs "issuanceDate" datePropOk &&
    optOk fs "proof" proofPropOk &&
    optOk fs "expirationDate" datePropOk &&
    optOk fs "credentialStatus" typedIDSchemaOk &&
    optOk fs "credentialSchema" typedIDsSchemaOk &&
    optOk fs "evidence" typedIDsSchemaOk &&
    optOk fs "refreshService" typedIDSchemaOk
  | _ => false

/-- vcModelValidationMode (source lines 200-214). -/
inductive VCModelValidationMode where
  | baseContextValidation
  | baseContextExtendedValidation
  | jsonldValidation
  deriving DecidableEq, Repr

/-- credentialOpts (source lines 422-429).  The PublicKeyFetcher is an
injected collaborator of which only presence matters here; the allowed
sets of the extended mode are lists already containing the automatic
base entries (the option constructors add them). -/
structure CredentialOpts where
  issuerPublicKeyFetcher : Option Unit
  disabledCustomSchema : Bool
  schemaLoader : CredentialSchemaLoader
  modelValidationMode : VCModelValidationMode
  allowedCustomContexts : List String
  allowedCustomTypes : List String

/-- Errors of the NewCredential pipeline, by stage (source error
wrapping: decode, unmarshal, load schemas, validate, build, and the
unwrapped post-validation). -/
inductive VCError where
  | decodeStage (msg : String)
  | unmarshalStage (msg : String)
  | schemaStage (msg : String)
  | validateSchemaErr (e : SchemaErr)
  | validateStage (msg : String)
  | buildStage (msg : String)
  | postValidateStage (msg : String)
  deriving DecidableEq, Repr

/-- validate (source lines 804-825): resolve the schema document through
getSchemaLoader, then run JSON-Schema validation on the raw document.
The gojsonschema verdict is the translated defaultSchemaCheck for the
default document and the injected collaborator function cv for a custom
document. -/
def validate (cv : Bytes → Json → Bool) (d : Json) (schemas : List TypedID)
    (opts : CredentialOpts) : Except VCError Unit :=
  match getSchemaLoader schemas opts.disabledCustomSchema opts.schemaLoader with
  | (.error e, _, _) => .error (.validateSchemaErr e)
  | (.ok .defaultSchema, _, _) =>
    if defaultSchemaCheck d then .ok ()
    else .error (.validateStage "verifiable credential: schema validation failed")
  | (.ok (.custom bytes), _, _) =>
    if cv bytes d then .ok ()
    else .error (.validateStage "verifiable credential: schema validation failed")

/-- validateBaseOnlyContextType (source lines 638-648).  The source
indexes Types[0] and Context[0] unconditionally; the indexing is modelled
by headD, whose default is never consulted on any pipeline path because
decoding guarantees both lists nonempty (theorem for C4). -/
def validateBaseOnlyContextType (vc : Credential) : Except String Unit :=
  if vc.types.length > 1 ∨ vc.types.headD "" ≠ vcType then
    .error "violated type constraint: not base only type defined"
  else if vc.context.length > 1 ∨ vc.context.headD "" ≠ baseContext then
    .error "violated @context constraint: not base only @context defined"
  else .ok ()

/-- validateCustomContextType (source lines 650-664). -/
def validateCustomContextType (vc : Credential) (opts : CredentialOpts) :
    Except String Unit :=
  match vc.context.find? (fun c => !(opts.allowedCustomContexts.contains c)) with
  | some c => .error ("not allowed @context: " ++ c)
  | none =>
    match vc.types.find? (fun t => !(opts.allowedCustomTypes.contains t)) with
    | some t => .error ("not allowed type: " ++ t)
    | none => .ok ()

/-- postValidateCredential (source lines 620-636): jsonld mode returns
success (external JSON-LD validation seam); the unknown-mode branch is
unrepresentable over the mode inductive. -/
def postValidateCredential (vc : Credential) (opts : CredentialOpts) :
    Except VCError Unit :=
  match opts.modelValidationMode with
  | .jsonldValidation => .ok ()
  | .baseContextValidation =>
    (validateBaseOnlyContextType vc).mapError VCError.postValidateStage
  | .baseContextExtendedValidation =>
    (validateCustomContextType vc opts).mapError VCError.postValidateStage

/-- loadCredentialSchemas (source lines 764-771). -/
def loadCredentialSchemas (v : Json) : Except VCError (List TypedID) :=
  (decodeCredentialSchema v).mapError
    (fun e => VCError.schemaStage ("load credential schema: " ++ e))

/-- The NewCredential pipeline from the decoded JSON document up to and
including Phase 1 validation and credential building (source lines
581-610): unmarshal the raw credential, load declared schemas when
present, validate, build. -/
def newCredentialPrePhase2 (cv : Bytes → Json → Bool) (d : Json)
    (opts : CredentialOpts) : Except VCError Credential :=
  match unmarshalRawCredential d with
  | .error e => .error (.unmarshalStage e)
  | .ok raw =>
    match (match raw.schema with
           | none => Except.ok ([] : List TypedID)
           | some v => loadCredentialSchemas v) with
    | .error e => .error e
    | .ok schemas =>
      match validate cv d schemas opts with
      | .error e => .error e
      | .ok _ =>
        match newCredentialFromRaw raw schemas with
        | .error e => .error (.buildStage e)
        | .ok vc => .ok vc

/-- The NewCredential pipeline from the decoded JSON document to the
finished credential (continues newCredentialPrePhase2 with Phase 2,
source lines 612-617). -/
def newCredentialCore (cv : Bytes → Json → Bool) (d : Json)
    (opts : CredentialOpts) : Except VCError Credential :=
  match newCredentialPrePhase2 cv d opts with
  | .error e => .error e
  | .ok vc =>
    match postValidateCredential vc opts with
    | .error e => .error e
    | .ok _ => .ok vc

/-- The JWT/JWS detection and decoding collaborators (modelled from the
spec: isJWS, isJWTUnsecured and the two JWT decoders live outside src),
the JSON text parser (encoding/json), and the gojsonschema verdict on
custom schema documents. -/
structure DecodeEnv where
  isJWS : Bytes → Bool
  isJWTUnsecured : Bytes → Bool
  decodeCredJWS : Bytes → Except String Bytes
  decodeCredJWTUnsecured : Bytes → Except String Bytes
  parseJSON : Bytes → Except String Json
  customValidate : Bytes → Json → Bool

/-- decodeRaw (source lines 738-762): a JWS input demands a public key
fetcher before any decoding work; an unsecured JWT is decoded without
one; anything else passes through as JSON bytes. -/
def decodeRaw (env : DecodeEnv) (vcData : Bytes) (pubKeyFetcher : Option Unit) :
    Except String Bytes :=
  if env.isJWS vcData then
    match pubKeyFetcher with
    | none => .error "public key fetcher is not defined"
    | some _ =>
      match env.decodeCredJWS vcData with
      | .error e => .error ("JWS decoding: " ++ e)
      | .ok b => .ok b
  else if env.isJWTUnsecured vcData then
    match env.decodeCredJWTUnsecured vcData with
    | .error e => .error ("unsecured JWT decoding: " ++ e)
    | .ok b => .ok b
  else .ok vcData

/-- NewCredential (source lines 571-618) on raw input bytes: decode the
envelope, parse the JSON, then run the core pipeline; returns the
credential and the decoded JSON bytes. -/
def NewCredential (env : DecodeEnv) (vcData : Bytes) (opts : CredentialOpts) :
    Except VCError (Credential × Bytes) :=
  match decodeRaw env vcData opts.issuerPublicKeyFetcher with
  | .error e => .error (.decodeStage e)
  | .ok vcDataDecoded =>
    match env.parseJSON vcDataDecoded with
    | .error e => .error (.unmarshalStage e)
    | .ok d =>
      match newCredentialCore env.customValidate d opts with
      | .error e => .error e
      | .ok vc => .ok (vc, vcDataDecoded)

/-!
### Marshalling
-/

/-- issuerToSerialize (source lines 796-802), composed with the
encoding/json emission of compositeIssuer (omitempty on both members):
an issuer with a name is an object, otherwise the bare id string. -/
def issuerToSerialize (issuer : Issuer) : Json :=
  if issuer.name ≠ "" then
    .obj ((if issuer.id ≠ "" then [("id", Json.str issuer.id)] else []) ++
      [("name", Json.str issuer.name)])
  else .str issuer.id

/-- typesToSerialize (source lines 974-981). -/
def typesToSerialize (types : List String) : Json :=
  match types with
  | [t] => .str t
  | _ => .arr (types.map .str)

/-- contextToSerialize (source lines 983-1001). -/
def contextToSerialize (context : List String) (cContext : List Json) : Json :=
  if cContext.length > 0 then .arr (context.map .str ++ cContext)
  else
    match context with
    | [c] => .str c
    | _ => .arr (context.map .str)

/-- A member that is emitted only when present (encoding/json
omitempty). -/
def optField (k : String) : Option Json → List (String × Json)
  | some v => [(k, v)]
  | none => []

/-- The member list emitted by Credential.MarshalJSON: raw() (source
lines 955-972) followed by the encoding/json emission of rawCredential
honoring omitempty in struct order, and the custom-fields merge
(modelled from the spec, section 4.4).  The credentialSchema member is
always present because raw() stores the non-nil Schemas slice in an
interface member, which encoding/json never treats as empty. -/
def marshalFields (vc : Credential) : List (String × Json) :=
  optField "@context" (some (contextToSerialize vc.context vc.customContext)) ++
  optField "id" (if vc.id = "" then none else some (.str vc.id)) ++
  optField "type" (some (typesToSerialize vc.types)) ++
  optField "credentialSubject" vc.subject ++
  optField "issuanceDate" (vc.issued.map .str) ++
  optField "expirationDate" (vc.expired.map .str) ++
  optField "proof" vc.proof ++
  optField "credentialStatus" (vc.status.map marshalTypedID) ++
  optField "issuer" (some (issuerToSerialize vc.issuer)) ++
  optField "credentialSchema" (some (.arr (vc.schemas.map marshalTypedID))) ++
  optField "evidence" vc.evidence ++
  optField "termsOfUse"
    (if vc.termsOfUse.isEmpty then none
     else some (.arr (vc.termsOfUse.map marshalTypedID))) ++
  optField "refreshService" (vc.refreshService.map marshalTypedID) ++
  vc.customFields

/-- Credential.MarshalJSON (source lines 1004-1011): the JSON object
with the members of marshalFields. -/
def MarshalJSON (vc : Credential) : Json := .obj (marshalFields vc)

/-- subjectID (source lines 914-953): resolve the id of a single subject
object.  The Go case for a slice of maps is unreachable for JSON-decoded
subjects, and toMap (modelled from the spec) fails on non-objects, so
arrays and scalars fail with the unknown-structure error. -/
def subjectID (subject : Option Json) : Except String String :=
  match subject with
  | some (.obj fs) =>
    match lookupKey "id" fs with
    | none => .error "subject id is not defined"
    | some (.str s) => .ok s
    | some _ => .error "subject id is not string"
  | _ => .error "subject of unknown structure"

/-- A JSON value is an object. -/
def Json.isObj : Json → Bool
  | .obj _ => true
  | _ => false

/-- parseCredentialOpts defaults (source lines 773-787): jsonld mode, no
fetcher, default schema loader.  The default HTTP client is irrelevant
for documents without declared schemas and is modelled as an erroring
transport. -/
def defaultOpts : CredentialOpts :=
  { issuerPublicKeyFetcher := none
    disabledCustomSchema := false
    schemaLoader := { client := fun _ => .error "no transport", cache := none }
    modelValidationMode := .jsonldValidation
    allowedCustomContexts := []
    allowedCustomTypes := [] }

/-- The minimal VC of spec scenario 1 / claim C3, with the one-element
type array. -/
def minimalVC : Json :=
  .obj [("@context", .arr [.str baseContext]),
        ("type", .arr [.str vcType]),
        ("issuer", .str "did:example:123"),
        ("issuanceDate", .str "2010-01-01T19:23:24Z"),
        ("credentialSubject", .obj [("id", .str "did:example:abc")])]

/-- The same minimal VC with the type in string form. -/
def minimalVCTypeString : Json :=
  .obj [("@context", .arr [.str baseContext]),
        ("type", .str vcType),
        ("issuer", .str "did:example:123"),
        ("issuanceDate", .str "2010-01-01T19:23:24Z"),
        ("credentialSubject", .obj [("id", .str "did:example:abc")])]

/-- The credential decoded from minimalVCTypeString. -/
def vcMinimal : Credential :=
  { context := [baseContext]
    customContext := []
    id := ""
    types := [vcType]
    subject := some (.obj [("id", .str "did:example:abc")])
    issuer := { id := "did:example:123", name := "" }
    issued := some "2010-01-01T19:23:24Z"
    expired := none
    proof := none
    status := none
    schemas := []
    evidence := none
    termsOfUse := []
    refreshService := none
    customFields := [] }

/-- C3: the minimal VC with type given as the one-element array
[VerifiableCredential] is REJECTED by NewCredential under the default
embedded schema: the type property of that schema carries minItems 2
(source lines 60-80), so the one-element array fails Phase 1 validation.
The semantically identical document with the type in string form is
accepted and yields exactly the field values the claim expects, which
shows the minItems constraint to be a schema authoring slip rather than
intent. -/
theorem minimalVC_rejected_by_type_minItems :
    newCredentialCore (fun _ _ => true) minimalVC defaultOpts =
      .error (.validateStage "verifiable credential: schema validation failed") ∧
    typePropOk (Json.arr [Json.str vcType]) = false ∧
    newCredentialCore (fun _ _ => true) minimalVCTypeString defaultOpts = .ok vcMinimal ∧
    vcMinimal.issuer = { id := "did:example:123", name := "" } ∧
    vcMinimal.issuer.name = "" ∧
    subjectID vcMinimal.subject = .ok "did:example:abc" :=
  ⟨rfl, rfl, rfl, rfl, rfl, rfl⟩

/-- A minimal VC whose issuer uses the object form without a name. -/
def vcWithObjectIssuer : Json :=
  .obj [("@context", .arr [.str baseContext]),
        ("type", .str vcType),
        ("issuer", .obj [("id", .str "did:example:123")]),
        ("issuanceDate", .str "2010-01-01T19:23:24Z"),
        ("credentialSubject", .obj [("id", .str "did:example:abc")])]

/-- C2 counterexample: a source issuer of the object form with an id and
no name decodes fine, but MarshalJSON re-emits it as the bare id string,
not as an object, contradicting the claimed re-emission rule. -/
theorem issuer_object_without_name_collapses :
    (match newCredentialCore (fun _ _ => true) vcWithObjectIssuer defaultOpts with
     | .ok vc => (MarshalJSON vc).lookup "issuer"
     | .error _ => none) = some (Json.str "did:example:123") ∧
    Json.isObj (Json.str "did:example:123") = false :=
  ⟨rfl, rfl⟩

/-- C2 (amended): for every decoded issuer, the serialized form is an
object exactly when the issuer name is nonempty; a string source form is
re-emitted as the same bare string, and an issuer with a nonempty name is
re-emitted as the object with id and name; in particular the object
source form without a name member is re-emitted as a bare string, not an
object. -/
theorem issuer_serialization_depends_on_name (iss : Issuer) (v : Option Json)
    (hd : decodeIssuer v = .ok iss) :
    (Json.isObj (issuerToSerialize iss) = true ↔ iss.name ≠ "") ∧
    (match v with
     | some (.str s) => issuerToSerialize iss = .str s
     | _ => True) ∧
    (iss.name ≠ "" → issuerToSerialize iss =
      .obj [("id", .str iss.id), ("name", .str iss.name)]) := by
  refine ⟨?_, ?_, ?_⟩
  · unfold issuerToSerialize
    by_cases hn : iss.name = ""
    · simp [hn, Json.isObj]
    · simp [hn, Json.isObj]
  · match v with
    | some (.str s) =>
      simp only [decodeIssuer] at hd
      cases hd
      simp [issuerToSerialize]
    | none => trivial
    | some .null => trivial
    | some (.bool _) => trivial
    | some (.num _) => trivial
    | some (.arr _) => trivial
    | some (.obj _) => trivial
  · intro hn
    have hid : iss.id ≠ "" := by
      match v with
      | some (.str s) =>
        simp only [decodeIssuer] at hd
        cases hd
        simp at hn
      | some (.obj fs) =>
        simp only [decodeIssuer] at hd
        cases hgi : getStringEntry fs "id" with
        | error e => simp only [hgi] at hd; exact Except.noConfusion hd
        | ok i =>
          simp only [hgi] at hd
          by_cases hie : i = ""
          · rw [if_pos hie] at hd; exact Except.noConfusion hd
          · rw [if_neg hie] at hd
            cases hgn : getStringEntry fs "name" with
            | error e => simp only [hgn] at hd; exact Except.noConfusion hd
            | ok n =>
              simp only [hgn] at hd
              cases hd
              exact hie
      | none => exact Except.noConfusion hd
      | some .null => exact Except.noConfusion hd
      | some (.bool _) => exact Except.noConfusion hd
      | some (.num _) => exact Except.noConfusion hd
      | some (.arr _) => exact Except.noConfusion hd
    simp [issuerToSerialize, hn, hid]

/-- Witness for C2 (amended) at the object form with a name. -/
theorem issuer_serialization_depends_on_name_witness :
    (Json.isObj (issuerToSerialize { id := "did:example:123", name := "Acme" }) = true ↔
      ({ id := "did:example:123", name := "Acme" } : Issuer).name ≠ "") ∧
    (match some (Json.obj [("id", Json.str "did:example:123"), ("name", Json.str "Acme")]) with
     | some (.str s) =>
       issuerToSerialize { id := "did:example:123", name := "Acme" } = .str s
     | _ => True) ∧
    (({ id := "did:example:123", name := "Acme" } : Issuer).name ≠ "" →
      issuerToSerialize { id := "did:example:123", name := "Acme" } =
        .obj [("id", .str "did:example:123"), ("name", .str "Acme")]) :=
  issuer_serialization_depends_on_name { id := "did:example:123", name := "Acme" }
    (some (Json.obj [("id", Json.str "did:example:123"), ("name", Json.str "Acme")])) rfl

/-- Inversion of the credential builder: a successfully built credential
is exactly the record assembled from the polymorphic decoder outputs. -/
theorem newCredentialFromRaw_ok_inv {raw : RawCredential} {schemas : List TypedID}
    {vc : Credential} (h : newCredentialFromRaw raw schemas = .ok vc) :
    ∃ types issuer context customContext,
      decodeType raw.typ = .ok types ∧
      decodeIssuer raw.issuer = .ok issuer ∧
      decodeContext raw.context = .ok (context, customContext) ∧
      vc = { context := context
             customContext := customContext
             id := raw.id
             types := types
             subject := raw.subject
             issuer := issuer
             issued := raw.issued
             expired := raw.expired
             proof := raw.proof
             status := raw.status
             schemas := schemas
             evidence := raw.evidence
             termsOfUse := raw.termsOfUse
             refreshService := raw.refreshService
             customFields := raw.customFields } := by
  unfold newCredentialFromRaw at h
  cases ht : decodeType raw.typ with
  | error e => simp only [ht] at h; exact Except.noConfusion h
  | ok types =>
    simp only [ht] at h
    cases hi : decodeIssuer raw.issuer with
    | error e => simp only [hi] at h; exact Except.noConfusion h
    | ok issuer =>
      simp only [hi] at h
      cases hc : decodeContext raw.context with
      | error e => simp only [hc] at h; exact Except.noConfusion h
      | ok p =>
        obtain ⟨ctx, cctx⟩ := p
        simp only [hc] at h
        cases h
        exact ⟨types, issuer, ctx, cctx, rfl, rfl, rfl, rfl⟩

/-- Inversion of the pipeline up to Phase 2: a credential reaching
Phase 2 came from a successful raw unmarshal, schema load, Phase 1
validation and build. -/
theorem prePhase2_ok_inv {cv : Bytes → Json → Bool} {d : Json} {opts : CredentialOpts}
    {vc : Credential} (h : newCredentialPrePhase2 cv d opts = .ok vc) :
    ∃ raw schemas,
      unmarshalRawCredential d = .ok raw ∧
      (match raw.schema with
       | none => Except.ok ([] : List TypedID)
       | some v => loadCredentialSchemas v) = .ok schemas ∧
      validate cv d schemas opts = .ok () ∧
      newCredentialFromRaw raw schemas = .ok vc := by
  unfold newCredentialPrePhase2 at h
  cases hu : unmarshalRawCredential d with
  | error e => simp only [hu] at h; exact Except.noConfusion h
  | ok raw =>
    simp only [hu] at h
    cases hs : (match raw.schema with
                | none => Except.ok ([] : List TypedID)
                | some v => loadCredentialSchemas v) with
    | error e => simp only [hs] at h; exact Except.noConfusion h
    | ok schemas =>
      simp only [hs] at h
      cases hv : validate cv d schemas opts with
      | error e => simp only [hv] at h; exact Except.noConfusion h
      | ok u =>
        simp only [hv] at h
        cases hb : newCredentialFromRaw raw schemas with
        | error e => simp only [hb] at h; exact Except.noConfusion h
        | ok vc2 =>
          simp only [hb] at h
          cases h
          exact ⟨raw, schemas, rfl, hs, by rw [hv], hb⟩

theorem decodeType_ok_nonempty {v : Option Json} {ts : List String}
    (h : decodeType v = .ok ts) : ts ≠ [] := by
  match v with
  | some (.str s) =>
    simp only [decodeType] at h
    cases h
    simp
  | some (.arr es) =>
    simp only [decodeType] at h
    by_cases he : es.isEmpty
    · rw [if_pos he] at h
      exact Except.noConfusion h
    · rw [if_neg he] at h
      match es, he with
      | .str s :: rest, _ =>
        simp only [allStrings] at h
        cases hr : allStrings rest with
        | none =>
          rw [hr] at h
          exact Except.noConfusion h
        | some ss =>
          rw [hr] at h
          have h2 : s :: ss = ts := Except.ok.inj h
          rw [← h2]
          simp
      | .null :: rest, _ => simp [allStrings] at h
      | .bool b :: rest, _ => simp [allStrings] at h
      | .num n :: rest, _ => simp [allStrings] at h
      | .arr es2 :: rest, _ => simp [allStrings] at h
      | .obj fs :: rest, _ => simp [allStrings] at h
  | none => exact Except.noConfusion h
  | some .null => exact Except.noConfusion h
  | some (.bool _) => exact Except.noConfusion h
  | some (.num _) => exact Except.noConfusion h
  | some (.obj _) => exact Except.noConfusion h

theorem decodeContext_ok_nonempty {v : Option Json} {ctx : List String}
    {cctx : List Json} (h : decodeContext v = .ok (ctx, cctx)) : ctx ≠ [] := by
  match v with
  | some (.str s) =>
    simp only [decodeContext] at h
    by_cases hb : s = baseContext
    · rw [if_pos hb] at h
      cases h
      simp
    · rw [if_neg hb] at h
      exact Except.noConfusion h
  | some (.arr es) =>
    simp only [decodeContext] at h
    cases hs : splitContext es with
    | none => simp only [hs] at h; exact Except.noConfusion h
    | some p =>
      obtain ⟨strs, objs⟩ := p
      simp only [hs] at h
      cases strs with
      | nil => exact Except.noConfusion h
      | cons s0 strs2 =>
        replace h : (if s0 = baseContext then Except.ok (s0 :: strs2, objs)
            else Except.error "vc context: missing base context") =
            Except.ok (ctx, cctx) := h
        by_cases hb : s0 = baseContext
        · rw [if_pos hb] at h
          have h2 : s0 :: strs2 = ctx := congrArg Prod.fst (Except.ok.inj h)
          rw [← h2]
          simp
        · rw [if_neg hb] at h
          exact Except.noConfusion h
  | none => exact Except.noConfusion h
  | some .null => exact Except.noConfusion h
  | some (.bool _) => exact Except.noConfusion h
  | some (.num _) => exact Except.noConfusion h
  | some (.obj _) => exact Except.noConfusion h

/-- The base-only structural check, on any credential with nonempty types
and context, succeeds exactly on the base-only shape. -/
theorem validateBaseOnly_iff (vc : Credential) (h1 : vc.types ≠ [])
    (h2 : vc.context ≠ []) :
    validateBaseOnlyContextType vc = .ok () ↔
      vc.types = [vcType] ∧ vc.context = [baseContext] := by
  unfold validateBaseOnlyContextType
  cases hts : vc.types with
  | nil => exact absurd hts h1
  | cons t ts =>
    cases hcs : vc.context with
    | nil => exact absurd hcs h2
    | cons c cs =>
      cases ts with
      | cons t2 ts2 =>
        rw [if_pos (by simp)]
        constructor
        · intro hh
          exact Except.noConfusion hh
        · intro ⟨ha, _⟩
          simp at ha
      | nil =>
        cases cs with
        | cons c2 cs2 =>
          constructor
          · intro hh
            split at hh
            · exact Except.noConfusion hh
            · rw [if_pos (by simp)] at hh
              exact Except.noConfusion hh
          · intro ⟨_, hb⟩
            simp at hb
        | nil =>
          by_cases htv : t = vcType
          · by_cases hcb : c = baseContext
            · rw [if_neg (by simp [htv]), if_neg (by simp [hcb])]
              simp [htv, hcb]
            · rw [if_neg (by simp [htv]), if_pos (by simp [hcb])]
              constructor
              · intro hh
                exact Except.noConfusion hh
              · intro ⟨_, hb⟩
                simp at hb
                exact absurd hb hcb
          · rw [if_pos (by simp [htv])]
            constructor
            · intro hh
              exact Except.noConfusion hh
            · intro ⟨ha, _⟩
              simp at ha
              exact absurd ha htv

/-- C4: every credential reaching Phase 2 (pipeline decode succeeded)
has nonempty types and context, so the unconditional Types[0] and
Context[0] indexing of the base-only validator (modelled by headD) never
consults the out-of-bounds default; and the base-only check succeeds
exactly when the types equal [VerifiableCredential] and the context
equals [baseContext] — any extension is rejected. -/
theorem baseOnly_validation_exact (cv : Bytes → Json → Bool) (d : Json)
    (opts : CredentialOpts) (vc : Credential)
    (h : newCredentialPrePhase2 cv d opts = .ok vc) :
    vc.types ≠ [] ∧ vc.context ≠ [] ∧
    (validateBaseOnlyContextType vc = .ok () ↔
      vc.types = [vcType] ∧ vc.context = [baseContext]) := by
  obtain ⟨raw, schemas, _, _, _, hb⟩ := prePhase2_ok_inv h
  obtain ⟨types, issuer, context, customContext, ht, _, hc, hvc⟩ :=
    newCredentialFromRaw_ok_inv hb
  have h1 : vc.types ≠ [] := by
    rw [hvc]
    exact decodeType_ok_nonempty ht
  have h2 : vc.context ≠ [] := by
    rw [hvc]
    exact decodeContext_ok_nonempty hc
  exact ⟨h1, h2, validateBaseOnly_iff vc h1 h2⟩

/-- Witness for C4 at the accepted minimal VC. -/
theorem baseOnly_validation_exact_witness :
    vcMinimal.types ≠ [] ∧ vcMinimal.context ≠ [] ∧
    (validateBaseOnlyContextType vcMinimal = .ok () ↔
      vcMinimal.types = [vcType] ∧ vcMinimal.context = [baseContext]) :=
  baseOnly_validation_exact (fun _ _ => true) minimalVCTypeString defaultOpts vcMinimal rfl

/-- C8: for every input recognized as a JWS, when no PublicKeyFetcher
option was supplied NewCredential fails with the decode-stage error —
for every environment and every option record, so unmarshalling, schema
loading and validation are never reached (the JSON parser and validators
of the environment are arbitrary and unused). -/
theorem jws_without_fetcher_fails_at_decode (env : DecodeEnv) (vcData : Bytes)
    (opts : CredentialOpts) (hjws : env.isJWS vcData = true)
    (hnofetch : opts.issuerPublicKeyFetcher = none) :
    NewCredential env vcData opts =
      .error (.decodeStage "public key fetcher is not defined") := by
  unfold NewCredential decodeRaw
  rw [hjws, hnofetch]
  rfl

/-- Witness for C8: a concrete JWS-shaped environment with no fetcher. -/
theorem jws_without_fetcher_fails_at_decode_witness :
    NewCredential
      { isJWS := fun _ => true
        isJWTUnsecured := fun _ => false
        decodeCredJWS := fun _ => .error "unused"
        decodeCredJWTUnsecured := fun _ => .error "unused"
        parseJSON := fun _ => .error "unused"
        customValidate := fun _ _ => true }
      [0] defaultOpts =
      .error (.decodeStage "public key fetcher is not defined") :=
  jws_without_fetcher_fails_at_decode
    { isJWS := fun _ => true
      isJWTUnsecured := fun _ => false
      decodeCredJWS := fun _ => .error "unused"
      decodeCredJWTUnsecured := fun _ => .error "unused"
      parseJSON := fun _ => .error "unused"
      customValidate := fun _ _ => true }
    [0] defaultOpts rfl rfl

/-!
## Round-tripping (C1)
normRoundTrip implements, member by member on the source document, the
normalization the code actually applies on re-emission; normStated
implements the normalization exactly as claim C1 states it.  The
round-trip theorem compares MarshalJSON of the decoded credential with
the normalized source document up to top-level key ordering (canonTop).
-/

/-- Re-emitted TypedID member: the id and type members of the source
object, in canonical member order. -/
def normTypedID (v : Json) : Json :=
  .obj [("id", (lookupKey "id" (topFields v)).getD .null),
        ("type", (lookupKey "type" (topFields v)).getD .null)]

/-- Stated rule: a one-element context array collapses to the bare
string. -/
def normContext (v : Json) : Json :=
  match v with
  | .arr [Json.str s] => .str s
  | _ => v

/-- Stated rule: a one-element type array collapses to the bare
string. -/
def normType (v : Json) : Json :=
  match v with
  | .arr [Json.str s] => .str s
  | _ => v

/-- Amended rule: an issuer object with a nonempty name re-emits as the
object with id and name; otherwise (string form, or object form without
a name) the bare id. -/
def normIssuer (v : Json) : Json :=
  match v with
  | .obj fs =>
    match lookupKey "name" fs with
    | some (.str n) =>
      if n = "" then (lookupKey "id" fs).getD .null
      else .obj [("id", (lookupKey "id" fs).getD .null), ("name", .str n)]
    | _ => (lookupKey "id" fs).getD .null
  | _ => v

/-- Amended rule: credentialSchema re-emits as an array; a single object
becomes a one-element array; member order inside each TypedID is
canonicalized. -/
def normSchema (v : Json) : Json :=
  match v with
  | .obj _ => .arr [normTypedID v]
  | .arr es => .arr (es.map normTypedID)
  | _ => v

/-- termsOfUse re-emits with each TypedID in canonical member order. -/
def normTerms (v : Json) : Json :=
  match v with
  | .arr es => .arr (es.map normTypedID)
  | _ => v

/-- The member-wise normalization the code applies on re-emission. -/
def normField (k : String) (v : Json) : Json :=
  if k = "@context" then normContext v
  else if k = "type" then normType v
  else if k = "issuer" then normIssuer v
  else if k = "credentialSchema" then normSchema v
  else if k = "credentialStatus" then normTypedID v
  else if k = "refreshService" then normTypedID v
  else if k = "termsOfUse" then normTerms v
  else v

/-- A member list holds a key. -/
def containsKey (fs : List (String × Json)) (k : String) : Bool :=
  (lookupKey k fs).isSome

/-- The source document normalized member by member as the code actually
re-emits it (amended claim C1): the members of d in source order, each
value normalized, with an empty credentialSchema array appended when the
source had none. -/
def normRoundTrip (d : Json) : Json :=
  match d with
  | .obj fs =>
    .obj (fs.map (fun p => (p.1, normField p.1 p.2)) ++
      (if containsKey fs "credentialSchema" then []
       else [("credentialSchema", Json.arr [])]))
  | j => j

/-- The source document normalized exactly as claim C1 states it: only
single-element type and context arrays collapse to bare strings; every
other member re-emits verbatim. -/
def normStated (d : Json) : Json :=
  match d with
  | .obj fs =>
    .obj (fs.map (fun p =>
      (p.1, if p.1 = "@context" then normContext p.2
            else if p.1 = "type" then normType p.2
            else p.2)))
  | j => j

/-- Duplicate-free keys, as a boolean. -/
def nodupKeysB : List (String × Json) → Bool
  | [] => true
  | p :: rest => !((keysOf rest).contains p.1) && nodupKeysB rest

/-- A JSON value is a string. -/
def Json.isStr : Json → Bool
  | .str _ => true
  | _ => false

/-- Only objects. -/
def objsOnly : List Json → Bool
  | [] => true
  | .obj _ :: rest => objsOnly rest
  | _ => false

/-- All string elements precede all object elements. -/
def stringsThenObjs : List Json → Bool
  | [] => true
  | .str _ :: rest => stringsThenObjs rest
  | l => objsOnly l

/-- Strict TypedID shape: an object with exactly the members id (a
nonempty string) and type (a string or an array of strings), without
duplicates. -/
def typedIDWF (v : Json) : Bool :=
  match v with
  | .obj fs =>
    fs.all (fun p => p.1 == "id" || p.1 == "type") &&
    nodupKeysB fs &&
    (match lookupKey "id" fs with
     | some (.str s) => !(s == "")
     | _ => false) &&
    (match lookupKey "type" fs with
     | some (.str _) => true
     | some (.arr es) => es.all Json.isStr
     | _ => false)
  | _ => false

/-- Well-formed issuer member: an object form carries only id and name
members, and a name, when present, is a nonempty string. -/
def issuerWF : Option Json → Bool
  | some (.obj fs) =>
    fs.all (fun p => p.1 == "id" || p.1 == "name") &&
    (match lookupKey "name" fs with
     | none => true
     | some (.str s) => !(s == "")
     | some _ => false)
  | _ => true

/-- Well-formed context member: in an array form the strings precede the
objects (the decoder splits them and the serializer re-emits strings
first, so interleavings would be reordered). -/
def contextWF : Option Json → Bool
  | some (.arr es) => stringsThenObjs es
  | _ => true

/-- Well-formed optional TypedID member. -/
def optTypedIDWF : Option Json → Bool
  | none => true
  | some v => typedIDWF v

/-- Modelled from the spec: the canonical well-formedness subset of VC
JSON documents over which the amended round-trip law is stated: an
object without duplicate keys, whose reserved members are not null (a
null member decodes like an absent one but would re-emit as absent),
whose id member, when present, is a nonempty string, whose issuer,
credential schema, status, refresh service and terms of use members are
in the strict shapes above (Go drops unknown members of TypedID and
issuer objects and drops empty termsOfUse arrays on re-emission), and
whose context array does not interleave objects between strings. -/
def vcWellFormed (d : Json) : Bool :=
  match d with
  | .obj fs =>
    nodupKeysB fs &&
    reservedKeys.all (fun k =>
      match lookupKey k fs with
      | some .null => false
      | _ => true) &&
    (match lookupKey "id" fs with
     | none => true
     | some (.str s) => !(s == "")
     | some _ => false) &&
    issuerWF (lookupKey "issuer" fs) &&
    contextWF (lookupKey "@context" fs) &&
    (match lookupKey "credentialSchema" fs with
     | none => true
     | some (.obj o) => typedIDWF (.obj o)
     | some (.arr es) => es.all typedIDWF
     | some _ => false) &&
    optTypedIDWF (lookupKey "credentialStatus" fs) &&
    optTypedIDWF (lookupKey "refreshService" fs) &&
    (match lookupKey "termsOfUse" fs with
     | none => true
     | some (.arr es) => !es.isEmpty && es.all typedIDWF
     | some _ => false)
  | _ => false

theorem lookupKey_optField_ne {k k2 : String} {v2 : Option Json} (h : k2 ≠ k) :
    lookupKey k (optField k2 v2) = none := by
  cases v2 <;> simp [optField, lookupKey, h]

theorem lookupKey_optField_eq (k : String) (v2 : Option Json) :
    lookupKey k (optField k v2) = v2 := by
  cases v2 <;> simp [optField, lookupKey]

theorem lookupNonNull_eq {fs : List (String × Json)} {k : String}
    (h : lookupKey k fs ≠ some .null) : lookupNonNull fs k = lookupKey k fs := by
  unfold lookupNonNull
  split
  · rename_i hh
    exact absurd hh h
  · rfl

/-- Inversion of newCredentialCore: Phase 2 passed after the pre-Phase 2
pipeline succeeded on the same credential. -/
theorem core_ok_inv {cv : Bytes → Json → Bool} {d : Json} {opts : CredentialOpts}
    {vc : Credential} (h : newCredentialCore cv d opts = .ok vc) :
    newCredentialPrePhase2 cv d opts = .ok vc := by
  unfold newCredentialCore at h
  cases hp : newCredentialPrePhase2 cv d opts with
  | error e => simp only [hp] at h; exact Except.noConfusion h
  | ok vc2 =>
    simp only [hp] at h
    cases hv : postValidateCredential vc2 opts with
    | error e => simp only [hv] at h; exact Except.noConfusion h
    | ok u =>
      simp only [hv] at h
      cases h
      rfl

/-- Inversion of the raw unmarshal: the document is an object and every
member of the raw credential is the decoded form of the corresponding
source member. -/
theorem unmarshal_ok_inv {d : Json} {raw : RawCredential}
    (h : unmarshalRawCredential d = .ok raw) :
    ∃ fs, d = .obj fs ∧
      decodeStringField fs "id" = .ok raw.id ∧
      decodeDateField fs "issuanceDate" = .ok raw.issued ∧
      decodeDateField fs "expirationDate" = .ok raw.expired ∧
      decodeProofField fs = .ok raw.proof ∧
      decodeOptTypedID fs "credentialStatus" = .ok raw.status ∧
      decodeOptTypedID fs "refreshService" = .ok raw.refreshService ∧
      decodeTermsOfUse fs = .ok raw.termsOfUse ∧
      raw.context = lookupNonNull fs "@context" ∧
      raw.typ = lookupNonNull fs "type" ∧
      raw.subject = lookupNonNull fs "credentialSubject" ∧
      raw.issuer = lookupNonNull fs "issuer" ∧
      raw.schema = lookupNonNull fs "credentialSchema" ∧
      raw.evidence = lookupNonNull fs "evidence" ∧
      raw.customFields = customOf fs := by
  match d with
  | .obj fs =>
    refine ⟨fs, rfl, ?_⟩
    simp only [unmarshalRawCredential] at h
    cases h1 : decodeStringField fs "id" with
    | error e => simp only [h1] at h; exact Except.noConfusion h
    | ok i =>
      simp only [h1] at h
      cases h2 : decodeDateField fs "issuanceDate" with
      | error e => simp only [h2] at h; exact Except.noConfusion h
      | ok issued =>
        simp only [h2] at h
        cases h3 : decodeDateField fs "expirationDate" with
        | error e => simp only [h3] at h; exact Except.noConfusion h
        | ok expired =>
          simp only [h3] at h
          cases h4 : decodeProofField fs with
          | error e => simp only [h4] at h; exact Except.noConfusion h
          | ok proof =>
            simp only [h4] at h
            cases h5 : decodeOptTypedID fs "credentialStatus" with
            | error e => simp only [h5] at h; exact Except.noConfusion h
            | ok status =>
              simp only [h5] at h
              cases h6 : decodeOptTypedID fs "refreshService" with
              | error e => simp only [h6] at h; exact Except.noConfusion h
              | ok refresh =>
                simp only [h6] at h
                cases h7 : decodeTermsOfUse fs with
                | error e => simp only [h7] at h; exact Except.noConfusion h
                | ok terms =>
                  simp only [h7] at h
                  cases h
                  exact ⟨rfl, rfl, rfl, rfl, rfl, rfl, rfl, rfl, rfl, rfl, rfl,
                    rfl, rfl, rfl⟩
  | .null => exact Except.noConfusion h
  | .bool b => exact Except.noConfusion h
  | .num n => exact Except.noConfusion h
  | .str s => exact Except.noConfusion h
  | .arr es => exact Except.noConfusion h

/-- A well-formed TypedID member re-emits as its normalized source
object. -/
theorem marshalTypedID_norm {v : Json} {t : TypedID} (hwf : typedIDWF v = true)
    (hd : decodeTypedID v = .ok t) : marshalTypedID t = normTypedID v := by
  match v with
  | .obj fs =>
    cases hl : lookupKey "id" fs with
    | none => simp [typedIDWF, hl] at hwf
    | some w =>
      match w with
      | .str s =>
        simp only [decodeTypedID, hl] at hd
        cases hd
        simp [marshalTypedID, normTypedID, topFields, hl]
      | .null => simp [typedIDWF, hl] at hwf
      | .bool b => simp [typedIDWF, hl] at hwf
      | .num n => simp [typedIDWF, hl] at hwf
      | .arr es => simp [typedIDWF, hl] at hwf
      | .obj o => simp [typedIDWF, hl] at hwf
  | .null => simp [typedIDWF] at hwf
  | .bool b => simp [typedIDWF] at hwf
  | .num n => simp [typedIDWF] at hwf
  | .str s => simp [typedIDWF] at hwf
  | .arr es => simp [typedIDWF] at hwf

/-- Element-wise version of marshalTypedID_norm. -/
theorem marshalTypedIDList_norm : ∀ {es : List Json} {ts : List TypedID},
    es.all typedIDWF = true → decodeTypedIDList es = some ts →
    ts.map marshalTypedID = es.map normTypedID
  | [], ts, _, hd => by
    simp only [decodeTypedIDList] at hd
    cases hd
    rfl
  | v :: es, ts, hwf, hd => by
    simp only [List.all_cons, Bool.and_eq_true] at hwf
    simp only [decodeTypedIDList] at hd
    cases ht : decodeTypedID v with
    | error e => simp only [ht] at hd; exact Option.noConfusion hd
    | ok t =>
      simp only [ht] at hd
      cases hr : decodeTypedIDList es with
      | none => simp only [hr] at hd; exact Option.noConfusion hd
      | some ts2 =>
        simp only [hr] at hd
        cases hd
        simp only [List.map_cons]
        rw [marshalTypedID_norm hwf.1 ht, marshalTypedIDList_norm hwf.2 hr]

/-- decodeTypedIDList preserves length. -/
theorem decodeTypedIDList_length : ∀ {es : List Json} {ts : List TypedID},
    decodeTypedIDList es = some ts → ts.length = es.length
  | [], ts, hd => by
    simp only [decodeTypedIDList] at hd
    cases hd
    rfl
  | v :: es, ts, hd => by
    simp only [decodeTypedIDList] at hd
    cases ht : decodeTypedID v with
    | error e => simp only [ht] at hd; exact Option.noConfusion hd
    | ok t =>
      simp only [ht] at hd
      cases hr : decodeTypedIDList es with
      | none => simp only [hr] at hd; exact Option.noConfusion hd
      | some ts2 =>
        simp only [hr] at hd
        cases hd
        simp [decodeTypedIDList_length hr]

/-- An all-strings array is the image of its string list. -/
theorem allStrings_recombine : ∀ {es : List Json} {ss : List String},
    allStrings es = some ss → ss.map Json.str = es
  | [], ss, h => by
    simp only [allStrings] at h
    cases h
    rfl
  | .str s :: es, ss, h => by
    simp only [allStrings] at h
    cases hr : allStrings es with
    | none => simp only [hr] at h; exact Option.noConfusion h
    | some ss2 =>
      simp only [hr] at h
      cases h
      simp only [List.map_cons]
      rw [allStrings_recombine hr]
  | .null :: es, ss, h => by simp [allStrings] at h
  | .bool b :: es, ss, h => by simp [allStrings] at h
  | .num n :: es, ss, h => by simp [allStrings] at h
  | .arr es2 :: es, ss, h => by simp [allStrings] at h
  | .obj fs :: es, ss, h => by simp [allStrings] at h

/-- splitContext of an objects-only list finds no strings. -/
theorem splitContext_objsOnly : ∀ {l : List Json}, objsOnly l = true →
    splitContext l = some ([], l)
  | [], _ => rfl
  | .obj fs :: rest, h => by
    simp only [objsOnly] at h
    simp [splitContext, splitContext_objsOnly h]
  | .null :: rest, h => by simp [objsOnly] at h
  | .bool b :: rest, h => by simp [objsOnly] at h
  | .num n :: rest, h => by simp [objsOnly] at h
  | .str s :: rest, h => by simp [objsOnly] at h
  | .arr es :: rest, h => by simp [objsOnly] at h

/-- On a strings-then-objects array, re-emitting context strings first
and objects second reproduces the source array. -/
theorem splitContext_recombine : ∀ {es : List Json} {strs : List String}
    {objs : List Json}, stringsThenObjs es = true →
    splitContext es = some (strs, objs) → strs.map Json.str ++ objs = es
  | [], strs, objs, _, hs => by
    simp only [splitContext] at hs
    cases hs
    rfl
  | .str s :: rest, strs, objs, hw, hs => by
    simp only [stringsThenObjs] at hw
    simp only [splitContext] at hs
    cases hr : splitContext rest with
    | none => simp only [hr] at hs; exact Option.noConfusion hs
    | some p =>
      obtain ⟨strs2, objs2⟩ := p
      simp only [hr] at hs
      cases hs
      simp only [List.map_cons, List.cons_append]
      rw [splitContext_recombine hw hr]
  | .obj fs :: rest, strs, objs, hw, hs => by
    replace hw : objsOnly rest = true := hw
    rw [show splitContext (.obj fs :: rest) = some ([], .obj fs :: rest) from
      splitContext_objsOnly (by simpa [objsOnly] using hw)] at hs
    cases hs
    rfl
  | .null :: rest, strs, objs, hw, hs => by
    replace hw : objsOnly (Json.null :: rest) = true := hw
    simp [objsOnly] at hw
  | .bool b :: rest, strs, objs, hw, hs => by
    replace hw : objsOnly (Json.bool b :: rest) = true := hw
    simp [objsOnly] at hw
  | .num n :: rest, strs, objs, hw, hs => by
    replace hw : objsOnly (Json.num n :: rest) = true := hw
    simp [objsOnly] at hw
  | .arr es2 :: rest, strs, objs, hw, hs => by
    replace hw : objsOnly (Json.arr es2 :: rest) = true := hw
    simp [objsOnly] at hw

/-- Context crux: a decoded non-interleaved context member re-emits as
its normalized source value. -/
theorem contextToSerialize_norm {v : Json} {ctx : List String} {cctx : List Json}
    (hwf : contextWF (some v) = true)
    (hd : decodeContext (some v) = .ok (ctx, cctx)) :
    contextToSerialize ctx cctx = normContext v := by
  match v with
  | .str s =>
    simp only [decodeContext] at hd
    by_cases hb : s = baseContext
    · rw [if_pos hb] at hd
      have h2 : ([s], ([] : List Json)) = (ctx, cctx) := Except.ok.inj hd
      have hc1 : ctx = [s] := (congrArg Prod.fst h2).symm
      have hc2 : cctx = [] := (congrArg Prod.snd h2).symm
      subst hc1
      subst hc2
      simp [contextToSerialize, normContext]
    · rw [if_neg hb] at hd
      exact Except.noConfusion hd
  | .arr es =>
    replace hwf : stringsThenObjs es = true := hwf
    simp only [decodeContext] at hd
    cases hs : splitContext es with
    | none => simp only [hs] at hd; exact Except.noConfusion hd
    | some p =>
      obtain ⟨strs, objs⟩ := p
      simp only [hs] at hd
      cases strs with
      | nil => exact Except.noConfusion hd
      | cons s0 strs2 =>
        replace hd : (if s0 = baseContext then Except.ok (s0 :: strs2, objs)
            else Except.error "vc context: missing base context") =
            Except.ok (ctx, cctx) := hd
        by_cases hb : s0 = baseContext
        · rw [if_pos hb] at hd
          have h2 : (s0 :: strs2, objs) = (ctx, cctx) := Except.ok.inj hd
          have hc1 : ctx = s0 :: strs2 := (congrArg Prod.fst h2).symm
          have hc2 : cctx = objs := (congrArg Prod.snd h2).symm
          subst hc1
          subst hc2
          have hre : (s0 :: strs2).map Json.str ++ cctx = es :=
            splitContext_recombine hwf hs
          cases cctx with
          | cons o os =>
            unfold contextToSerialize
            rw [if_pos (by simp)]
            rw [hre]
            cases strs2 with
            | nil =>
              simp only [List.map_cons, List.map_nil, List.cons_append,
                List.nil_append] at hre
              rw [← hre]
              rfl
            | cons c2 crest =>
              simp only [List.map_cons, List.cons_append] at hre
              rw [← hre]
              rfl
          | nil =>
            simp only [List.append_nil] at hre
            unfold contextToSerialize
            rw [if_neg (by simp)]
            cases strs2 with
            | nil =>
              simp only [List.map_cons, List.map_nil] at hre
              rw [← hre]
              rfl
            | cons c2 crest =>
              simp only [List.map_cons] at hre
              rw [← hre]
              rfl
        · rw [if_neg hb] at hd
          exact Except.noConfusion hd
  | .null => exact Except.noConfusion hd
  | .bool b => exact Except.noConfusion hd
  | .num n => exact Except.noConfusion hd
  | .obj fs => exact Except.noConfusion hd

/-- Type crux: a decoded type member re-emits as its normalized source
value. -/
theorem typesToSerialize_norm {v : Json} {ts : List String}
    (hd : decodeType (some v) = .ok ts) : typesToSerialize ts = normType v := by
  match v with
  | .str s =>
    simp only [decodeType] at hd
    cases hd
    rfl
  | .arr es =>
    simp only [decodeType] at hd
    by_cases he : es.isEmpty
    · rw [if_pos he] at hd
      exact Except.noConfusion hd
    · rw [if_neg he] at hd
      cases ha : allStrings es with
      | none => rw [ha] at hd; exact Except.noConfusion hd
      | some ss =>
        rw [ha] at hd
        have hss : ss = ts := Except.ok.inj hd
        subst hss
        have hre : ss.map Json.str = es := allStrings_recombine ha
        cases ss with
        | nil =>
          rw [← hre] at he
          simp at he
        | cons t rest =>
          cases rest with
          | nil =>
            simp only [List.map_cons, List.map_nil] at hre
            rw [← hre]
            rfl
          | cons t2 rest2 =>
            simp only [List.map_cons] at hre
            rw [← hre]
            rfl
  | .null => exact Except.noConfusion hd
  | .bool b => exact Except.noConfusion hd
  | .num n => exact Except.noConfusion hd
  | .obj fs => exact Except.noConfusion hd

/-- Issuer crux: a decoded well-formed issuer member re-emits as its
normalized source value. -/
theorem issuerToSerialize_norm {v : Json} {iss : Issuer}
    (hwf : issuerWF (some v) = true)
    (hd : decodeIssuer (some v) = .ok iss) :
    issuerToSerialize iss = normIssuer v := by
  match v with
  | .str s =>
    simp only [decodeIssuer] at hd
    cases hd
    rfl
  | .obj fs =>
    replace hwf : (fs.all (fun p => p.1 == "id" || p.1 == "name") &&
      (match lookupKey "name" fs with
       | none => true
       | some (.str s) => !(s == "")
       | some _ => false)) = true := hwf
    rw [Bool.and_eq_true] at hwf
    simp only [decodeIssuer] at hd
    cases hgi : getStringEntry fs "id" with
    | error e => simp only [hgi] at hd; exact Except.noConfusion hd
    | ok i =>
      simp only [hgi] at hd
      by_cases hie : i = ""
      · rw [if_pos hie] at hd
        exact Except.noConfusion hd
      · rw [if_neg hie] at hd
        have hidl : lookupKey "id" fs = some (.str i) := by
          unfold getStringEntry at hgi
          cases hl : lookupKey "id" fs with
          | none =>
            rw [hl] at hgi
            exact absurd (Except.ok.inj hgi).symm hie
          | some w =>
            rw [hl] at hgi
            match w, hgi with
            | .str s2, hgi =>
              rw [Except.ok.inj hgi]
            | .null, hgi => exact Except.noConfusion hgi
            | .bool b, hgi => exact Except.noConfusion hgi
            | .num n, hgi => exact Except.noConfusion hgi
            | .arr es, hgi => exact Except.noConfusion hgi
            | .obj o, hgi => exact Except.noConfusion hgi
        cases hgn : getStringEntry fs "name" with
        | error e => simp only [hgn] at hd; exact Except.noConfusion hd
        | ok n =>
          simp only [hgn] at hd
          cases hd
          cases hnl : lookupKey "name" fs with
          | none =>
            have hn : n = "" := by
              unfold getStringEntry at hgn
              rw [hnl] at hgn
              exact (Except.ok.inj hgn).symm
            subst hn
            simp [issuerToSerialize, normIssuer, hnl, hidl]
          | some w =>
            cases w with
            | str s2 =>
              have hn : n = s2 := by
                unfold getStringEntry at hgn
                rw [hnl] at hgn
                exact (Except.ok.inj hgn).symm
              subst hn
              have hs2 : ¬(n = "") := by
                rw [hnl] at hwf
                simpa using hwf.2
              simp [issuerToSerialize, normIssuer, hnl, hidl, hs2, hie]
            | null =>
              rw [hnl] at hwf
              simp at hwf
            | bool b =>
              rw [hnl] at hwf
              simp at hwf
            | num n2 =>
              rw [hnl] at hwf
              simp at hwf
            | arr es =>
              rw [hnl] at hwf
              simp at hwf
            | obj o =>
              rw [hnl] at hwf
              simp at hwf
  | .null => exact Except.noConfusion hd
  | .bool b => exact Except.noConfusion hd
  | .num n => exact Except.noConfusion hd
  | .arr es => exact Except.noConfusion hd

/-- Schema crux: a decoded well-formed credentialSchema member re-emits
as its normalized source value (always an array). -/
theorem schemasToSerialize_norm {v : Json} {ts : List TypedID}
    (hwf : (match v with
            | .obj o => typedIDWF (.obj o)
            | .arr es => es.all typedIDWF
            | _ => false) = true)
    (hd : decodeCredentialSchema v = .ok ts) :
    Json.arr (ts.map marshalTypedID) = normSchema v := by
  match v with
  | .obj o =>
    simp only [decodeCredentialSchema] at hd
    cases ht : decodeTypedID (.obj o) with
    | error e => simp only [ht] at hd; exact Except.noConfusion hd
    | ok t =>
      simp only [ht] at hd
      cases hd
      simp only [normSchema, List.map_cons, List.map_nil]
      rw [marshalTypedID_norm hwf ht]
  | .arr es =>
    simp only [decodeCredentialSchema] at hd
    cases hl : decodeTypedIDList es with
    | none => simp only [hl] at hd; exact Except.noConfusion hd
    | some ts2 =>
      simp only [hl] at hd
      cases hd
      simp only [normSchema]
      rw [marshalTypedIDList_norm hwf hl]
  | .null => exact Except.noConfusion hd
  | .bool b => exact Except.noConfusion hd
  | .num n => exact Except.noConfusion hd
  | .str s => exact Except.noConfusion hd

theorem marshal_lookup_context (vc : Credential) :
    lookupKey "@context" (marshalFields vc) =
      some (contextToSerialize vc.context vc.customContext) := by
  simp [marshalFields, lookupKey_append, lookupKey_optField_eq, lookupKey_optField_ne]

theorem marshal_lookup_id (vc : Credential)
    (hc : lookupKey "id" vc.customFields = none) :
    lookupKey "id" (marshalFields vc) =
      (if vc.id = "" then none else some (.str vc.id)) := by
  simp [marshalFields, lookupKey_append, lookupKey_optField_eq, lookupKey_optField_ne, hc]

theorem marshal_lookup_type (vc : Credential) :
    lookupKey "type" (marshalFields vc) = some (typesToSerialize vc.types) := by
  simp [marshalFields, lookupKey_append, lookupKey_optField_eq, lookupKey_optField_ne]

theorem marshal_lookup_subject (vc : Credential)
    (hc : lookupKey "credentialSubject" vc.customFields = none) :
    lookupKey "credentialSubject" (marshalFields vc) = vc.subject := by
  simp [marshalFields, lookupKey_append, lookupKey_optField_eq, lookupKey_optField_ne, hc]

theorem marshal_lookup_issued (vc : Credential)
    (hc : lookupKey "issuanceDate" vc.customFields = none) :
    lookupKey "issuanceDate" (marshalFields vc) = vc.issued.map .str := by
  simp [marshalFields, lookupKey_append, lookupKey_optField_eq, lookupKey_optField_ne, hc]

theorem marshal_lookup_expired (vc : Credential)
    (hc : lookupKey "expirationDate" vc.customFields = none) :
    lookupKey "expirationDate" (marshalFields vc) = vc.expired.map .str := by
  simp [marshalFields, lookupKey_append, lookupKey_optField_eq, lookupKey_optField_ne, hc]

theorem marshal_lookup_proof (vc : Credential)
    (hc : lookupKey "proof" vc.customFields = none) :
    lookupKey "proof" (marshalFields vc) = vc.proof := by
  simp [marshalFields, lookupKey_append, lookupKey_optField_eq, lookupKey_optField_ne, hc]

theorem marshal_lookup_status (vc : Credential)
    (hc : lookupKey "credentialStatus" vc.customFields = none) :
    lookupKey "credentialStatus" (marshalFields vc) = vc.status.map marshalTypedID := by
  simp [marshalFields, lookupKey_append, lookupKey_optField_eq, lookupKey_optField_ne, hc]

theorem marshal_lookup_issuer (vc : Credential) :
    lookupKey "issuer" (marshalFields vc) = some (issuerToSerialize vc.issuer) := by
  simp [marshalFields, lookupKey_append, lookupKey_optField_eq, lookupKey_optField_ne]

theorem marshal_lookup_schema (vc : Credential) :
    lookupKey "credentialSchema" (marshalFields vc) =
      some (.arr (vc.schemas.map marshalTypedID)) := by
  simp [marshalFields, lookupKey_append, lookupKey_optField_eq, lookupKey_optField_ne]

theorem marshal_lookup_evidence (vc : Credential)
    (hc : lookupKey "evidence" vc.customFields = none) :
    lookupKey "evidence" (marshalFields vc) = vc.evidence := by
  simp [marshalFields, lookupKey_append, lookupKey_optField_eq, lookupKey_optField_ne, hc]

theorem marshal_lookup_terms (vc : Credential)
    (hc : lookupKey "termsOfUse" vc.customFields = none) :
    lookupKey "termsOfUse" (marshalFields vc) =
      (if vc.termsOfUse.isEmpty then none
       else some (.arr (vc.termsOfUse.map marshalTypedID))) := by
  simp [marshalFields, lookupKey_append, lookupKey_optField_eq, lookupKey_optField_ne, hc]

theorem marshal_lookup_refresh (vc : Credential)
    (hc : lookupKey "refreshService" vc.customFields = none) :
    lookupKey "refreshService" (marshalFields vc) =
      vc.refreshService.map marshalTypedID := by
  simp [marshalFields, lookupKey_append, lookupKey_optField_eq, lookupKey_optField_ne, hc]

theorem marshal_lookup_custom (vc : Credential) (k : String)
    (hk : reservedKeys.contains k = false) :
    lookupKey k (marshalFields vc) = lookupKey k vc.customFields := by
  simp only [reservedKeys, List.contains_cons, Bool.or_eq_false_iff,
    List.contains_nil, beq_eq_false_iff_ne, ne_eq] at hk
  obtain ⟨h1, h2, h3, h4, h5, h6, h7, h8, h9, h10, h11, h12, h13, _⟩ := hk
  simp [marshalFields, lookupKey_append,
    lookupKey_optField_ne (Ne.symm h1), lookupKey_optField_ne (Ne.symm h2),
    lookupKey_optField_ne (Ne.symm h3), lookupKey_optField_ne (Ne.symm h4),
    lookupKey_optField_ne (Ne.symm h5), lookupKey_optField_ne (Ne.symm h6),
    lookupKey_optField_ne (Ne.symm h7), lookupKey_optField_ne (Ne.symm h8),
    lookupKey_optField_ne (Ne.symm h9), lookupKey_optField_ne (Ne.symm h10),
    lookupKey_optField_ne (Ne.symm h11), lookupKey_optField_ne (Ne.symm h12),
    lookupKey_optField_ne (Ne.symm h13)]

theorem normField_custom (k : String) (v : Json)
    (hk : reservedKeys.contains k = false) : normField k v = v := by
  simp only [reservedKeys, List.contains_cons, Bool.or_eq_false_iff,
    List.contains_nil, beq_eq_false_iff_ne, ne_eq] at hk
  obtain ⟨h1, h2, h3, h4, h5, h6, h7, h8, h9, h10, h11, h12, h13, _⟩ := hk
  simp [normField, h1, h3, h8, h9, h10, h12, h13]

theorem norm_lookup_ne (fs : List (String × Json)) (k : String)
    (hk : k ≠ "credentialSchema") :
    lookupKey k (topFields (normRoundTrip (.obj fs))) =
      (lookupKey k fs).map (normField k) := by
  simp only [normRoundTrip, topFields, lookupKey_append, lookupKey_map_value]
  split
  · simp [lookupKey]
  · simp [lookupKey, Ne.symm hk]

theorem norm_lookup_schema_present {fs : List (String × Json)} {v : Json}
    (h : lookupKey "credentialSchema" fs = some v) :
    lookupKey "credentialSchema" (topFields (normRoundTrip (.obj fs))) =
      some (normSchema v) := by
  have hck : containsKey fs "credentialSchema" = true := by
    simp [containsKey, h]
  simp only [normRoundTrip, topFields, hck, if_true, List.append_nil,
    lookupKey_map_value, h, Option.map_some]
  rfl

theorem norm_lookup_schema_absent {fs : List (String × Json)}
    (h : lookupKey "credentialSchema" fs = none) :
    lookupKey "credentialSchema" (topFields (normRoundTrip (.obj fs))) =
      some (.arr []) := by
  have hck : containsKey fs "credentialSchema" = false := by
    simp [containsKey, h]
  simp only [normRoundTrip, topFields, hck, if_false, lookupKey_append,
    lookupKey_map_value, h, Option.map_none]
  rfl

theorem nodupKeysB_iff {l : List (String × Json)} :
    nodupKeysB l = true ↔ NodupKeys l := by
  induction l with
  | nil => simp [nodupKeysB, NodupKeys, keysOf]
  | cons p rest ih =>
    simp only [nodupKeysB, Bool.and_eq_true, Bool.not_eq_true', ih]
    unfold NodupKeys
    simp only [keysOf, List.map_cons, List.nodup_cons]
    constructor
    · intro ⟨ha, hb⟩
      exact ⟨by simpa using ha, hb⟩
    · intro ⟨ha, hb⟩
      exact ⟨by simpa using ha, hb⟩

theorem mem_customOf {fs : List (String × Json)} {p : String × Json}
    (hp : p ∈ customOf fs) :
    p ∈ fs ∧ reservedKeys.contains p.1 = false := by
  unfold customOf at hp
  have := List.mem_filter.mp hp
  refine ⟨this.1, ?_⟩
  simpa using this.2

theorem nodupKeys_customOf {fs : List (String × Json)} (h : NodupKeys fs) :
    NodupKeys (customOf fs) := by
  unfold NodupKeys keysOf at h ⊢
  exact List.Nodup.sublist (List.Sublist.map Prod.fst (List.filter_sublist fs)) h

theorem lookupKey_customOf_reserved {fs : List (String × Json)} {k : String}
    (hk : reservedKeys.contains k = true) : lookupKey k (customOf fs) = none := by
  apply lookupKey_eq_none_of_not_mem
  intro hmem
  rcases List.mem_map.mp hmem with ⟨p, hp, hpk⟩
  have hres := (mem_customOf hp).2
  rw [hpk] at hres
  rw [hres] at hk
  exact Bool.noConfusion hk

theorem lookupKey_customOf_eq {fs : List (String × Json)} {k : String}
    (hk : reservedKeys.contains k = false) :
    lookupKey k (customOf fs) = lookupKey k fs := by
  induction fs with
  | nil => rfl
  | cons p rest ih =>
    unfold customOf
    simp only [List.filter_cons]
    by_cases hp : p.1 = k
    · rw [if_pos (by simp [hp]; simpa using hk)]
      simp only [lookupKey, if_pos hp]
    · split
      · simp only [lookupKey, if_neg hp]
        exact ih
      · simp only [lookupKey, if_neg hp]
        exact ih

/-- The mapped members of marshalFields, separated from the custom
members for structural reasoning. -/
def mappedFields (vc : Credential) : List (String × Json) :=
  optField "@context" (some (contextToSerialize vc.context vc.customContext)) ++
  optField "id" (if vc.id = "" then none else some (.str vc.id)) ++
  optField "type" (some (typesToSerialize vc.types)) ++
  optField "credentialSubject" vc.subject ++
  optField "issuanceDate" (vc.issued.map .str) ++
  optField "expirationDate" (vc.expired.map .str) ++
  optField "proof" vc.proof ++
  optField "credentialStatus" (vc.status.map marshalTypedID) ++
  optField "issuer" (some (issuerToSerialize vc.issuer)) ++
  optField "credentialSchema" (some (.arr (vc.schemas.map marshalTypedID))) ++
  optField "evidence" vc.evidence ++
  optField "termsOfUse"
    (if vc.termsOfUse.isEmpty then none
     else some (.arr (vc.termsOfUse.map marshalTypedID))) ++
  optField "refreshService" (vc.refreshService.map marshalTypedID)

theorem marshalFields_eq (vc : Credential) :
    marshalFields vc = mappedFields vc ++ vc.customFields := by
  simp [marshalFields, mappedFields, List.append_assoc]

theorem keysOf_optField_sublist (k : String) (v2 : Option Json) :
    List.Sublist (keysOf (optField k v2)) [k] := by
  cases v2 <;> simp [optField, keysOf]

theorem keysOf_mapped_sublist (vc : Credential) :
    List.Sublist (keysOf (mappedFields vc)) reservedKeys := by
  show List.Sublist (keysOf (mappedFields vc))
    (["@context"] ++ ["id"] ++ ["type"] ++ ["credentialSubject"] ++ ["issuanceDate"] ++
      ["expirationDate"] ++ ["proof"] ++ ["credentialStatus"] ++ ["issuer"] ++
      ["credentialSchema"] ++ ["evidence"] ++ ["termsOfUse"] ++ ["refreshService"])
  unfold mappedFields keysOf
  simp only [List.map_append]
  exact ((((((((((((keysOf_optField_sublist _ _).append
    (keysOf_optField_sublist _ _)).append
    (keysOf_optField_sublist _ _)).append
    (keysOf_optField_sublist _ _)).append
    (keysOf_optField_sublist _ _)).append
    (keysOf_optField_sublist _ _)).append
    (keysOf_optField_sublist _ _)).append
    (keysOf_optField_sublist _ _)).append
    (keysOf_optField_sublist _ _)).append
    (keysOf_optField_sublist _ _)).append
    (keysOf_optField_sublist _ _)).append
    (keysOf_optField_sublist _ _)).append
    (keysOf_optField_sublist _ _)

theorem nodupKeys_marshalFields (vc : Credential)
    (hnd : NodupKeys vc.customFields)
    (hck : ∀ p ∈ vc.customFields, reservedKeys.contains p.1 = false) :
    NodupKeys (marshalFields vc) := by
  rw [marshalFields_eq]
  unfold NodupKeys
  rw [show keysOf (mappedFields vc ++ vc.customFields) =
    keysOf (mappedFields vc) ++ keysOf vc.customFields by simp [keysOf]]
  rw [List.nodup_append]
  refine ⟨List.Nodup.sublist (keysOf_mapped_sublist vc) (by decide), hnd, ?_⟩
  intro a ha hb
  have hares : a ∈ reservedKeys := (keysOf_mapped_sublist vc).subset ha
  rcases List.mem_map.mp hb with ⟨p, hp, hpk⟩
  have hres := hck p hp
  rw [hpk] at hres
  exact absurd hares (by simpa using hres)

theorem keysOf_map_value (f : String → Json → Json) (l : List (String × Json)) :
    keysOf (l.map (fun p => (p.1, f p.1 p.2))) = keysOf l := by
  unfold keysOf
  rw [List.map_map]
  rfl

theorem nodupKeys_normFields {fs : List (String × Json)} (h : NodupKeys fs) :
    NodupKeys (topFields (normRoundTrip (.obj fs))) := by
  simp only [normRoundTrip, topFields]
  split
  · rename_i hck
    unfold NodupKeys
    rw [List.append_nil, show keysOf (fs.map (fun p => (p.1, normField p.1 p.2))) =
      keysOf fs from keysOf_map_value normField fs]
    exact h
  · rename_i hck
    unfold NodupKeys
    rw [show keysOf (fs.map (fun p => (p.1, normField p.1 p.2)) ++
        [("credentialSchema", Json.arr [])]) =
      keysOf (fs.map (fun p => (p.1, normField p.1 p.2))) ++ ["credentialSchema"]
      by simp [keysOf]]
    rw [keysOf_map_value normField fs]
    rw [List.nodup_append]
    refine ⟨h, by simp, ?_⟩
    intro a ha hb
    simp only [List.mem_singleton] at hb
    subst hb
    have : (lookupKey "credentialSchema" fs).isSome = true := lookupKey_isSome_iff.mpr ha
    simp only [containsKey] at hck
    exact hck (by simpa using this)

theorem lookupNonNull_some {fs : List (String × Json)} {k : String} {w : Json}
    (h : lookupNonNull fs k = some w) : lookupKey k fs = some w := by
  unfold lookupNonNull at h
  split at h
  · exact Option.noConfusion h
  · exact h

theorem lookupNonNull_of_lookup_some {fs : List (String × Json)} {k : String} {w : Json}
    (h : lookupKey k fs = some w) (hw : w ≠ .null) : lookupNonNull fs k = some w := by
  unfold lookupNonNull
  rw [h]
  match w, hw with
  | .bool b, _ => rfl
  | .num n, _ => rfl
  | .str s, _ => rfl
  | .arr es, _ => rfl
  | .obj o, _ => rfl
  | .null, hw => exact absurd rfl hw

theorem lookupNonNull_of_lookup_none {fs : List (String × Json)} {k : String}
    (h : lookupKey k fs = none) : lookupNonNull fs k = none := by
  unfold lookupNonNull
  rw [h]

theorem mapError_ok {e1 e2 a : Type} {x : Except e1 a} {f : e1 → e2} {b : a}
    (h : x.mapError f = .ok b) : x = .ok b := by
  cases x with
  | error e => exact Except.noConfusion h
  | ok v =>
    cases h
    rfl

/-- C1 (amended): for every well-formed VC JSON document accepted by the
NewCredential pipeline, MarshalJSON of the decoded credential equals the
source document up to top-level key ordering and the normalization the
code applies: single-element type and context arrays collapse to bare
strings, an issuer object without a name collapses to the bare id
string, credentialSchema re-emits as an array (a single object becomes a
one-element array, and an empty array appears even when the source had
no credentialSchema member), and TypedID members re-emit with canonical
member order; every unknown top-level member of the source appears
verbatim in the re-emitted JSON. -/
theorem roundtrip_amended (cv : Bytes → Json → Bool) (opts : CredentialOpts)
    (d : Json) (vc : Credential)
    (hwf : vcWellFormed d = true)
    (hok : newCredentialCore cv d opts = .ok vc) :
    canonTop (MarshalJSON vc) = canonTop (normRoundTrip d) ∧
    (∀ k v, reservedKeys.contains k = false → d.lookup k = some v →
      (MarshalJSON vc).lookup k = some v) := by
  obtain ⟨raw, schemas, hu, hsch, hval, hb⟩ := prePhase2_ok_inv (core_ok_inv hok)
  obtain ⟨types, issuer, ctx, cctx, ht, hi, hc, hvc⟩ := newCredentialFromRaw_ok_inv hb
  obtain ⟨fs, hdfs, h_id, h_issued, h_expired, h_proof, h_status, h_refresh, h_terms,
    h_ctx, h_typ, h_subj, h_issuer, h_schema, h_evidence, h_custom⟩ := unmarshal_ok_inv hu
  subst hdfs
  replace hwf : (nodupKeysB fs &&
      (reservedKeys.all (fun k =>
        match lookupKey k fs with
        | some .null => false
        | _ => true)) &&
      (match lookupKey "id" fs with
       | none => true
       | some (.str s) => !(s == "")
       | some _ => false) &&
      issuerWF (lookupKey "issuer" fs) &&
      contextWF (lookupKey "@context" fs) &&
      (match lookupKey "credentialSchema" fs with
       | none => true
       | some (.obj o) => typedIDWF (.obj o)
       | some (.arr es) => es.all typedIDWF
       | some _ => false) &&
      optTypedIDWF (lookupKey "credentialStatus" fs) &&
      optTypedIDWF (lookupKey "refreshService" fs) &&
      (match lookupKey "termsOfUse" fs with
       | none => true
       | some (.arr es) => !es.isEmpty && es.all typedIDWF
       | some _ => false)) = true := hwf
  simp only [Bool.and_eq_true] at hwf
  obtain ⟨⟨⟨⟨⟨⟨⟨⟨hw_nd, hw_nn⟩, hw_id⟩, hw_iss⟩, hw_ctx⟩, hw_sch⟩, hw_st⟩,
    hw_rf⟩, hw_to⟩ := hwf
  have hndk : NodupKeys fs := nodupKeysB_iff.mp hw_nd
  have hnonnull : ∀ k, k ∈ reservedKeys → lookupKey k fs ≠ some .null := by
    intro k hk hl
    have := List.all_eq_true.mp hw_nn k hk
    rw [hl] at this
    exact Bool.noConfusion this
  -- credential member projections
  have hv_ctx : vc.context = ctx := by rw [hvc]
  have hv_cctx : vc.customContext = cctx := by rw [hvc]
  have hv_id : vc.id = raw.id := by rw [hvc]
  have hv_types : vc.types = types := by rw [hvc]
  have hv_subj : vc.subject = raw.subject := by rw [hvc]
  have hv_iss : vc.issuer = issuer := by rw [hvc]
  have hv_issued : vc.issued = raw.issued := by rw [hvc]
  have hv_expired : vc.expired = raw.expired := by rw [hvc]
  have hv_proof : vc.proof = raw.proof := by rw [hvc]
  have hv_status : vc.status = raw.status := by rw [hvc]
  have hv_schemas : vc.schemas = schemas := by rw [hvc]
  have hv_evid : vc.evidence = raw.evidence := by rw [hvc]
  have hv_terms : vc.termsOfUse = raw.termsOfUse := by rw [hvc]
  have hv_refresh : vc.refreshService = raw.refreshService := by rw [hvc]
  have hv_cust : vc.customFields = customOf fs := by rw [hvc, h_custom]
  -- custom member facts
  have hcustnd : NodupKeys vc.customFields := by
    rw [hv_cust]
    exact nodupKeys_customOf hndk
  have hcustres : ∀ p ∈ vc.customFields, reservedKeys.contains p.1 = false := by
    intro p hp
    rw [hv_cust] at hp
    exact (mem_customOf hp).2
  have hcustnone : ∀ k, reservedKeys.contains k = true →
      lookupKey k vc.customFields = none := by
    intro k hk
    rw [hv_cust]
    exact lookupKey_customOf_reserved hk
  -- the per-key lookup equality
  have hlook : ∀ k, lookupKey k (marshalFields vc) =
      lookupKey k (topFields (normRoundTrip (.obj fs))) := by
    intro k
    by_cases hk1 : k = "@context"
    · subst hk1
      rw [marshal_lookup_context, norm_lookup_ne fs _ (by decide)]
      cases hraw : raw.context with
      | none =>
        rw [hraw] at hc
        exact Except.noConfusion hc
      | some w =>
        rw [hraw] at hc
        have hl : lookupKey "@context" fs = some w :=
          lookupNonNull_some (h_ctx.symm.trans hraw)
        rw [hl]
        have hwfw : contextWF (some w) = true := by rw [← hl]; exact hw_ctx
        rw [hv_ctx, hv_cctx]
        rw [contextToSerialize_norm hwfw hc]
        simp [normField]
    · by_cases hk2 : k = "id"
      · subst hk2
        rw [marshal_lookup_id vc (hcustnone _ (by decide)),
          norm_lookup_ne fs _ (by decide)]
        cases hl : lookupKey "id" fs with
        | none =>
          have : raw.id = "" := by
            unfold decodeStringField at h_id
            rw [hl] at h_id
            exact (Except.ok.inj h_id).symm
          rw [hv_id, this]
          simp
        | some w =>
          match w with
          | .str s =>
            have hs : raw.id = s := by
              unfold decodeStringField at h_id
              rw [hl] at h_id
              exact (Except.ok.inj h_id).symm
            have hsne : ¬(s = "") := by
              rw [hl] at hw_id
              simpa using hw_id
            rw [hv_id, hs, if_neg hsne]
            simp [normField]
          | .null => rw [hl] at hw_id; simp at hw_id
          | .bool b => rw [hl] at hw_id; simp at hw_id
          | .num n => rw [hl] at hw_id; simp at hw_id
          | .arr es => rw [hl] at hw_id; simp at hw_id
          | .obj o => rw [hl] at hw_id; simp at hw_id
      · by_cases hk3 : k = "type"
        · subst hk3
          rw [marshal_lookup_type, norm_lookup_ne fs _ (by decide)]
          cases hraw : raw.typ with
          | none =>
            rw [hraw] at ht
            exact Except.noConfusion ht
          | some w =>
            rw [hraw] at ht
            have hl : lookupKey "type" fs = some w :=
              lookupNonNull_some (h_typ.symm.trans hraw)
            rw [hl, hv_types, typesToSerialize_norm ht]
            simp [normField]
        · by_cases hk4 : k = "credentialSubject"
          · subst hk4
            rw [marshal_lookup_subject vc (hcustnone _ (by decide)),
              norm_lookup_ne fs _ (by decide)]
            rw [hv_subj, h_subj]
            cases hl : lookupKey "credentialSubject" fs with
            | none => rw [lookupNonNull_of_lookup_none hl]; rfl
            | some w =>
              have hwn : w ≠ .null := by
                intro hh
                subst hh
                exact hnonnull _ (by decide) hl
              rw [lookupNonNull_of_lookup_some hl hwn]
              have : normField "credentialSubject" w = w := by simp [normField]
              rw [Option.map_some', this]
          · by_cases hk5 : k = "issuanceDate"
            · subst hk5
              rw [marshal_lookup_issued vc (hcustnone _ (by decide)),
                norm_lookup_ne fs _ (by decide)]
              cases hl : lookupKey "issuanceDate" fs with
              | none =>
                have : raw.issued = none := by
                  unfold decodeDateField at h_issued
                  rw [hl] at h_issued
                  exact (Except.ok.inj h_issued).symm
                rw [hv_issued, this]
                rfl
              | some w =>
                match w with
                | .str s =>
                  unfold decodeDateField at h_issued
                  simp only [hl] at h_issued
                  by_cases hrf : isRFC3339 s
                  · rw [if_pos hrf] at h_issued
                    have : raw.issued = some s := (Except.ok.inj h_issued).symm
                    rw [hv_issued, this]
                    simp [normField]
                  · rw [if_neg hrf] at h_issued
                    exact Except.noConfusion h_issued
                | .null => exact absurd hl (hnonnull _ (by decide))
                | .bool b =>
                  unfold decodeDateField at h_issued
                  rw [hl] at h_issued
                  exact Except.noConfusion h_issued
                | .num n =>
                  unfold decodeDateField at h_issued
                  rw [hl] at h_issued
                  exact Except.noConfusion h_issued
                | .arr es =>
                  unfold decodeDateField at h_issued
                  rw [hl] at h_issued
                  exact Except.noConfusion h_issued
                | .obj o =>
                  unfold decodeDateField at h_issued
                  rw [hl] at h_issued
                  exact Except.noConfusion h_issued
            · by_cases hk6 : k = "expirationDate"
              · subst hk6
                rw [marshal_lookup_expired vc (hcustnone _ (by decide)),
                  norm_lookup_ne fs _ (by decide)]
                cases hl : lookupKey "expirationDate" fs with
                | none =>
                  have : raw.expired = none := by
                    unfold decodeDateField at h_expired
                    rw [hl] at h_expired
                    exact (Except.ok.inj h_expired).symm
                  rw [hv_expired, this]
                  rfl
                | some w =>
                  match w with
                  | .str s =>
                    unfold decodeDateField at h_expired
                    simp only [hl] at h_expired
                    by_cases hrf : isRFC3339 s
                    · rw [if_pos hrf] at h_expired
                      have : raw.expired = some s := (Except.ok.inj h_expired).symm
                      rw [hv_expired, this]
                      simp [normField]
                    · rw [if_neg hrf] at h_expired
                      exact Except.noConfusion h_expired
                  | .null => exact absurd hl (hnonnull _ (by decide))
                  | .bool b =>
                    unfold decodeDateField at h_expired
                    rw [hl] at h_expired
                    exact Except.noConfusion h_expired
                  | .num n =>
                    unfold decodeDateField at h_expired
                    rw [hl] at h_expired
                    exact Except.noConfusion h_expired
                  | .arr es =>
                    unfold decodeDateField at h_expired
                    rw [hl] at h_expired
                    exact Except.noConfusion h_expired
                  | .obj o =>
                    unfold decodeDateField at h_expired
                    rw [hl] at h_expired
                    exact Except.noConfusion h_expired
              · by_cases hk7 : k = "proof"
                · subst hk7
                  rw [marshal_lookup_proof vc (hcustnone _ (by decide)),
                    norm_lookup_ne fs _ (by decide)]
                  cases hl : lookupKey "proof" fs with
                  | none =>
                    have : raw.proof = none := by
                      unfold decodeProofField at h_proof
                      rw [hl] at h_proof
                      exact (Except.ok.inj h_proof).symm
                    rw [hv_proof, this]
                    rfl
                  | some w =>
                    match w with
                    | .obj o =>
                      have : raw.proof = some (.obj o) := by
                        unfold decodeProofField at h_proof
                        rw [hl] at h_proof
                        exact (Except.ok.inj h_proof).symm
                      rw [hv_proof, this]
                      simp [normField]
                    | .null => exact absurd hl (hnonnull _ (by decide))
                    | .bool b =>
                      unfold decodeProofField at h_proof
                      rw [hl] at h_proof
                      exact Except.noConfusion h_proof
                    | .num n =>
                      unfold decodeProofField at h_proof
                      rw [hl] at h_proof
                      exact Except.noConfusion h_proof
                    | .str s =>
                      unfold decodeProofField at h_proof
                      rw [hl] at h_proof
                      exact Except.noConfusion h_proof
                    | .arr es =>
                      unfold decodeProofField at h_proof
                      rw [hl] at h_proof
                      exact Except.noConfusion h_proof
                · by_cases hk8 : k = "credentialStatus"
                  · subst hk8
                    rw [marshal_lookup_status vc (hcustnone _ (by decide)),
                      norm_lookup_ne fs _ (by decide)]
                    cases hl : lookupKey "credentialStatus" fs with
                    | none =>
                      have : raw.status = none := by
                        unfold decodeOptTypedID at h_status
                        rw [hl] at h_status
                        exact (Except.ok.inj h_status).symm
                      rw [hv_status, this]
                      rfl
                    | some w =>
                      have hwn : w ≠ .null := by
                        intro hh
                        subst hh
                        exact hnonnull _ (by decide) hl
                      have hdec : (decodeTypedID w).map some = .ok raw.status := by
                        unfold decodeOptTypedID at h_status
                        rw [hl] at h_status
                        match w, hwn with
                        | .bool b, _ => exact h_status
                        | .num n, _ => exact h_status
                        | .str s, _ => exact h_status
                        | .arr es, _ => exact h_status
                        | .obj o, _ => exact h_status
                        | .null, hwn => exact absurd rfl hwn
                      cases hdt : decodeTypedID w with
                      | error e =>
                        rw [hdt] at hdec
                        exact Except.noConfusion hdec
                      | ok t =>
                        rw [hdt] at hdec
                        have : raw.status = some t := (Except.ok.inj hdec).symm
                        rw [hv_status, this, Option.map_some', Option.map_some']
                        have hwfw : typedIDWF w = true := by
                          have := hw_st
                          unfold optTypedIDWF at this
                          rw [hl] at this
                          exact this
                        rw [marshalTypedID_norm hwfw hdt]
                        simp [normField]
                  · by_cases hk9 : k = "issuer"
                    · subst hk9
                      rw [marshal_lookup_issuer, norm_lookup_ne fs _ (by decide)]
                      cases hraw : raw.issuer with
                      | none =>
                        rw [hraw] at hi
                        exact Except.noConfusion hi
                      | some w =>
                        rw [hraw] at hi
                        have hl : lookupKey "issuer" fs = some w :=
                          lookupNonNull_some (h_issuer.symm.trans hraw)
                        rw [hl]
                        have hwfw : issuerWF (some w) = true := by
                          rw [← hl]
                          exact hw_iss
                        rw [hv_iss, issuerToSerialize_norm hwfw hi]
                        simp [normField]
                    · by_cases hk10 : k = "credentialSchema"
                      · subst hk10
                        rw [marshal_lookup_schema]
                        cases hl : lookupKey "credentialSchema" fs with
                        | none =>
                          rw [norm_lookup_schema_absent hl]
                          have hraw : raw.schema = none :=
                            h_schema.trans (lookupNonNull_of_lookup_none hl)
                          rw [hraw] at hsch
                          have : schemas = [] := (Except.ok.inj hsch).symm
                          rw [hv_schemas, this]
                          rfl
                        | some w =>
                          have hwn : w ≠ .null := by
                            intro hh
                            subst hh
                            exact hnonnull _ (by decide) hl
                          rw [norm_lookup_schema_present hl]
                          have hraw : raw.schema = some w :=
                            h_schema.trans (lookupNonNull_of_lookup_some hl hwn)
                          rw [hraw] at hsch
                          have hdec : decodeCredentialSchema w = .ok schemas :=
                            mapError_ok hsch
                          have hws := hw_sch
                          rw [hl] at hws
                          rw [hv_schemas]
                          cases w with
                          | obj o => rw [schemasToSerialize_norm hws hdec]
                          | arr es => rw [schemasToSerialize_norm hws hdec]
                          | null => exact absurd rfl hwn
                          | bool b => exact Bool.noConfusion hws
                          | num n => exact Bool.noConfusion hws
                          | str s => exact Bool.noConfusion hws
                      · by_cases hk11 : k = "evidence"
                        · subst hk11
                          rw [marshal_lookup_evidence vc (hcustnone _ (by decide)),
                            norm_lookup_ne fs _ (by decide)]
                          rw [hv_evid, h_evidence]
                          cases hl : lookupKey "evidence" fs with
                          | none => rw [lookupNonNull_of_lookup_none hl]; rfl
                          | some w =>
                            have hwn : w ≠ .null := by
                              intro hh
                              subst hh
                              exact hnonnull _ (by decide) hl
                            rw [lookupNonNull_of_lookup_some hl hwn]
                            have : normField "evidence" w = w := by simp [normField]
                            rw [Option.map_some', this]
                        · by_cases hk12 : k = "termsOfUse"
                          · subst hk12
                            rw [marshal_lookup_terms vc (hcustnone _ (by decide)),
                              norm_lookup_ne fs _ (by decide)]
                            cases hl : lookupKey "termsOfUse" fs with
                            | none =>
                              have : raw.termsOfUse = [] := by
                                unfold decodeTermsOfUse at h_terms
                                rw [hl] at h_terms
                                exact (Except.ok.inj h_terms).symm
                              rw [hv_terms, this]
                              rfl
                            | some w =>
                              match w with
                              | .arr es =>
                                unfold decodeTermsOfUse at h_terms
                                simp only [hl] at h_terms
                                simp only [hl] at hw_to
                                rw [Bool.and_eq_true] at hw_to
                                cases hls : decodeTypedIDList es with
                                | none =>
                                  rw [hls] at h_terms
                                  exact Except.noConfusion h_terms
                                | some ts =>
                                  rw [hls] at h_terms
                                  have hts : raw.termsOfUse = ts :=
                                    (Except.ok.inj h_terms).symm
                                  have htlen : ts.length = es.length :=
                                    decodeTypedIDList_length hls
                                  have htne : ts.isEmpty = false := by
                                    cases hes : es with
                                    | nil =>
                                      rw [hes] at hw_to
                                      simp at hw_to
                                    | cons e es2 =>
                                      rw [hes] at htlen
                                      cases ts with
                                      | nil => simp at htlen
                                      | cons t ts2 => rfl
                                  rw [hv_terms, hts, if_neg (by simp [htne])]
                                  rw [marshalTypedIDList_norm hw_to.2 hls]
                                  simp [normField, normTerms]
                              | .null => exact absurd hl (hnonnull _ (by decide))
                              | .bool b =>
                                unfold decodeTermsOfUse at h_terms
                                rw [hl] at h_terms
                                exact Except.noConfusion h_terms
                              | .num n =>
                                unfold decodeTermsOfUse at h_terms
                                rw [hl] at h_terms
                                exact Except.noConfusion h_terms
                              | .str s =>
                                unfold decodeTermsOfUse at h_terms
                                rw [hl] at h_terms
                                exact Except.noConfusion h_terms
                              | .obj o =>
                                unfold decodeTermsOfUse at h_terms
                                rw [hl] at h_terms
                                exact Except.noConfusion h_terms
                          · by_cases hk13 : k = "refreshService"
                            · subst hk13
                              rw [marshal_lookup_refresh vc (hcustnone _ (by decide)),
                                norm_lookup_ne fs _ (by decide)]
                              cases hl : lookupKey "refreshService" fs with
                              | none =>
                                have : raw.refreshService = none := by
                                  unfold decodeOptTypedID at h_refresh
                                  rw [hl] at h_refresh
                                  exact (Except.ok.inj h_refresh).symm
                                rw [hv_refresh, this]
                                rfl
                              | some w =>
                                have hwn : w ≠ .null := by
                                  intro hh
                                  subst hh
                                  exact hnonnull _ (by decide) hl
                                have hdec : (decodeTypedID w).map some =
                                    .ok raw.refreshService := by
                                  unfold decodeOptTypedID at h_refresh
                                  rw [hl] at h_refresh
                                  match w, hwn with
                                  | .bool b, _ => exact h_refresh
                                  | .num n, _ => exact h_refresh
                                  | .str s, _ => exact h_refresh
                                  | .arr es, _ => exact h_refresh
                                  | .obj o, _ => exact h_refresh
                                  | .null, hwn => exact absurd rfl hwn
                                cases hdt : decodeTypedID w with
                                | error e =>
                                  rw [hdt] at hdec
                                  exact Except.noConfusion hdec
                                | ok t =>
                                  rw [hdt] at hdec
                                  have : raw.refreshService = some t :=
                                    (Except.ok.inj hdec).symm
                                  rw [hv_refresh, this, Option.map_some',
                                    Option.map_some']
                                  have hwfw : typedIDWF w = true := by
                                    have := hw_rf
                                    unfold optTypedIDWF at this
                                    rw [hl] at this
                                    exact this
                                  rw [marshalTypedID_norm hwfw hdt]
                                  simp [normField]
                            · -- k is a custom (unknown) member name
                              have hkres : reservedKeys.contains k = false := by
                                simp only [reservedKeys, List.contains_cons,
                                  Bool.or_eq_false_iff, List.contains_nil,
                                  beq_eq_false_iff_ne, ne_eq]
                                exact ⟨hk1, hk2, hk3, hk4, hk5, hk6, hk7, hk8,
                                  hk9, hk10, hk11, hk12, hk13, trivial⟩
                              rw [marshal_lookup_custom vc k hkres, hv_cust,
                                lookupKey_customOf_eq hkres,
                                norm_lookup_ne fs k (fun hh => hk10 hh)]
                              cases hl : lookupKey k fs with
                              | none => rfl
                              | some w =>
                                rw [Option.map_some', normField_custom k w hkres]
  refine ⟨?_, ?_⟩
  · show Json.obj (sortK (marshalFields vc)) =
      Json.obj (sortK (topFields (normRoundTrip (.obj fs))))
    exact congrArg Json.obj
      (sortK_ext (nodupKeys_marshalFields vc hcustnd hcustres)
        (nodupKeys_normFields hndk) hlook)
  · intro k v hk hl
    show lookupKey k (marshalFields vc) = some v
    rw [marshal_lookup_custom vc k hk, hv_cust, lookupKey_customOf_eq hk]
    exact hl

/-- A minimal VC document extended with an unknown top-level member. -/
def docRoundTrip : Json :=
  .obj [("@context", .arr [.str baseContext]),
        ("type", .str vcType),
        ("issuer", .str "did:example:123"),
        ("issuanceDate", .str "2010-01-01T19:23:24Z"),
        ("credentialSubject", .obj [("id", .str "did:example:abc")]),
        ("referenceNumber", .num 83294847)]

/-- The credential decoded from docRoundTrip. -/
def vcRoundTrip : Credential :=
  { vcMinimal with customFields := [("referenceNumber", .num 83294847)] }

/-- Witness for the amended C1 round trip at a concrete document carrying
an unknown top-level member. -/
theorem roundtrip_amended_witness :
    vcWellFormed docRoundTrip = true ∧
    newCredentialCore (fun _ _ => true) docRoundTrip defaultOpts = .ok vcRoundTrip ∧
    canonTop (MarshalJSON vcRoundTrip) = canonTop (normRoundTrip docRoundTrip) :=
  ⟨rfl, rfl,
    (roundtrip_amended (fun _ _ => true) defaultOpts docRoundTrip vcRoundTrip
      rfl rfl).1⟩

/-- C1 counterexample: the round trip does not hold modulo only key
ordering and single-element type and context collapse, as the claim
states it; the minimal string-typed document is accepted, yet the
re-emitted JSON carries a credentialSchema member, an empty array, that
the source document does not have. -/
theorem roundtrip_as_stated_fails :
    newCredentialCore (fun _ _ => true) minimalVCTypeString defaultOpts =
      .ok vcMinimal ∧
    canonTop (MarshalJSON vcMinimal) ≠ canonTop (normStated minimalVCTypeString) :=
  ⟨rfl, fun h => by
    have h2 := congrArg (fun j => j.lookup "credentialSchema") h
    have hL : (canonTop (MarshalJSON vcMinimal)).lookup "credentialSchema" =
        some (Json.arr []) := rfl
    have hR : (canonTop (normStated minimalVCTypeString)).lookup "credentialSchema" =
        none := rfl
    simp only [hL, hR] at h2
    exact Option.noConfusion h2⟩

end AriesVC
